import Mathlib

/-!
# Verification of the nlhappy event-extraction data pipeline

A shallow embedding, in Lean 4, of the label-vocabulary builders and the four
tag-encoding transforms of `nlhappy/datamodules/event_extraction.py`, together
with the threshold comparisons of the prediction paths in
`nlhappy/models/entity_extraction/biaffine.py` and
`src/models/span_classification/bert_global_pointer.py`.

Modelling conventions:
* Python character offsets are `Int` (so that `end - 1` on `end = 0` behaves
  like Python's `-1` rather than truncating).
* A `try/except` that swallows an alignment/lookup/indexing failure is
  modelled by matching on `Option` results; the warning logged in the
  `except` branch is modelled as a counter.
* An uncaught Python exception (an `assert` failure inside `sparse_transform`,
  a `KeyError` outside every `try` in `graph_transform`, a `ValueError` raised
  by `np.concatenate` on an empty input) makes the modelled function return
  `none`.
* Dense `torch` tag tensors are total functions `Nat → Nat → Nat → Nat`
  initialised to zero; an assignment `t[l][i][j] = 1` is a pointwise update.
  Writes are guarded by the label-axis bound, mirroring the `IndexError` a
  `torch` tensor raises (and the surrounding `except` catches) on an
  out-of-range label index.
* Python `set`s of coordinate pairs are `Finset (Nat × Nat)`.
-/

/-! ## Code-point string order

Python compares strings (and tuples of strings) lexicographically by code
point.  `String.decidableLT` does not reduce in the kernel, so the same order
is defined here by recursion over the underlying character lists. -/

def charListLe : List Char → List Char → Bool
  | [], _ => true
  | _ :: _, [] => false
  | a :: as, b :: bs => if a < b then true else if a = b then charListLe as bs else false

def strLe (a b : String) : Bool := charListLe a.data b.data

/-- Python's `<=` on strings, as a decidable relation usable by `insertionSort`. -/
def strle (a b : String) : Prop := strLe a b = true

instance : DecidableRel strle := fun a b => inferInstanceAs (Decidable (_ = true))

/-- Python's `<=` on pairs of strings (tuple comparison is lexicographic). -/
def pairle (a b : String × String) : Prop :=
  (if a.1 = b.1 then strLe a.2 b.2 else strLe a.1 b.1) = true

instance : DecidableRel pairle := fun a b => inferInstanceAs (Decidable (_ = true))

/-! ## Data model

An input record is `{'text': ..., 'events': [{'label': ..., 'trigger':
{'offset': (h, t), ...}, 'roles': [{'label': ..., 'offset': (s, e), ...}]}]}`.
The `text` fields of roles are only interpolated into warning messages and are
dropped. -/

structure Role where
  label : String
  offset : Int × Int
deriving DecidableEq, Repr

structure Event where
  label : String
  trigger : Int × Int
  roles : List Role
deriving DecidableEq, Repr

structure Example where
  text : String
  events : List Event
deriving DecidableEq, Repr

/-- The `end > start` invariant the spec requires of every span. -/
def WFRole (r : Role) : Prop := r.offset.1 < r.offset.2

def WFEvent (e : Event) : Prop := e.trigger.1 < e.trigger.2 ∧ ∀ r ∈ e.roles, WFRole r

def WFExample (ex : Example) : Prop := ∀ e ∈ ex.events, WFEvent e

instance (r : Role) : Decidable (WFRole r) := inferInstanceAs (Decidable (_ < _))

instance (e : Event) : Decidable (WFEvent e) := inferInstanceAs (Decidable (_ ∧ _))

instance (ex : Example) : Decidable (WFExample ex) :=
  inferInstanceAs (Decidable (∀ e ∈ ex.events, WFEvent e))

/-! ## Offset aligner -/

/-- Modelled from the spec: the offset aligner `char_idx_to_token` lives in
`nlhappy/utils/make_datamodule.py`, which is not among the provided sources.
Spec §4.1: it scans the offset map for the (first) token whose
`(char_start, char_end)` half-open span contains the character index and fails
when no token's range contains it; the failure surfaces as an exception that
the encoders catch, modelled as `none`. -/
def char_idx_to_token (charIdx : Int) (offset_mapping : List (Int × Int)) : Option Nat :=
  offset_mapping.findIdx? fun s => decide (s.1 ≤ charIdx ∧ charIdx < s.2)

/-- Alignment of one role: the encoders align the inclusive start offset and
then `offset[1] - 1` (the exclusive end minus one); the surrounding `try`
succeeds only when both alignments do. -/
def alignRole (om : List (Int × Int)) (r : Role) : Option (Nat × Nat) :=
  match char_idx_to_token r.offset.1 om, char_idx_to_token (r.offset.2 - 1) om with
  | some h, some t => some (h, t)
  | _, _ => none

/-! ## Dense tag tensors -/

def Tensor3 : Type := Nat → Nat → Nat → Nat

def zeros3 : Tensor3 := fun _ _ _ => 0

def setOne (t : Tensor3) (l i j : Nat) : Tensor3 :=
  fun l' i' j' => if l' = l ∧ i' = i ∧ j' = j then 1 else t l' i' j'

/-! ## `gplinker_transform` (strategy `event-role-head-tail`)

`event_extraction.py` lines 119-178.  The per-example state carries the three
dense tensors `role_ids`, `head_ids`, `tail_ids` and the number of warnings
logged.  `c2id` is `self.combined2id` and `L = len(self.combined2id)`. -/

structure GpState where
  role_ids : Tensor3
  head_ids : Tensor3
  tail_ids : Tensor3
  warnings : Nat

def gpInit : GpState := ⟨zeros3, zeros3, zeros3, 0⟩

/-- Inner loop (lines 160-171): link `role1` (already aligned to `h1`, `t1`)
with every later `role2`; `min`/`max` order the indices before the write. -/
def gpPairLoop (om : List (Int × Int)) (h1 t1 : Nat) : List Role → GpState → GpState
  | [], st => st
  | r2 :: rest, st =>
    match alignRole om r2 with
    | some (h2, t2) =>
      gpPairLoop om h1 t1 rest
        { st with
          head_ids := setOne st.head_ids 0 (min h1 h2) (max h1 h2)
          tail_ids := setOne st.tail_ids 0 (min t1 t2) (max t1 t2) }
    | none => gpPairLoop om h1 t1 rest { st with warnings := st.warnings + 1 }

/-- Outer loop (lines 148-171).  A failure of the alignment, of the
`combined2id` lookup or of the label-axis indexing is caught by the `except`,
warns, and `continue`s to the next `role1`, skipping the pair loop. -/
def gpRoleLoop (c2id : String × String → Option Nat) (L : Nat) (om : List (Int × Int))
    (e_label : String) : List Role → GpState → GpState
  | [], st => st
  | r1 :: rest, st =>
    match alignRole om r1 with
    | some (h1, t1) =>
      match c2id (e_label, r1.label) with
      | some lid =>
        if lid < L then
          gpRoleLoop c2id L om e_label rest
            (gpPairLoop om h1 t1 rest { st with role_ids := setOne st.role_ids lid h1 t1 })
        else gpRoleLoop c2id L om e_label rest { st with warnings := st.warnings + 1 }
      | none => gpRoleLoop c2id L om e_label rest { st with warnings := st.warnings + 1 }
    | none => gpRoleLoop c2id L om e_label rest { st with warnings := st.warnings + 1 }

/-- The synthetic trigger role appended (in place) to `event['roles']` by
`gplinker_transform`, `graph_transform` and `sparse_transform` (lines 147, 272
and 337): `{'label': '触发词', 'offset': (trigger_head, trigger_tail)}`. -/
def triggerRole (e : Event) : Role := { label := "触发词", offset := e.trigger }

/-- The in-place mutation every transform performs on an event: one synthetic
trigger role is appended to its role list. -/
def withTriggerRole (e : Event) : Event := { e with roles := e.roles ++ [triggerRole e] }

/-- Lines 140-171 for one event; also returns the event with its mutated
role list. -/
def gpEvent (c2id : String × String → Option Nat) (L : Nat) (om : List (Int × Int))
    (e : Event) (st : GpState) : GpState × Event :=
  let roles' := e.roles ++ [triggerRole e]
  (gpRoleLoop c2id L om e.label roles' st, { e with roles := roles' })

def gpEvents (c2id : String × String → Option Nat) (L : Nat) (om : List (Int × Int)) :
    List Event → GpState → GpState × List Event
  | [], st => (st, [])
  | e :: es, st =>
    let p := gpEvent c2id L om e st
    let q := gpEvents c2id L om es p.1
    (q.1, p.2 :: q.2)

/-- One example of the batch loop of `gplinker_transform` (lines 134-174).
`tok` abstracts the tokenizer: the `offset_mapping` row for a text, of length
`max_length`. -/
def gplinker_transform (c2id : String × String → Option Nat) (L : Nat)
    (tok : String → List (Int × Int)) (ex : Example) : GpState × Example :=
  let p := gpEvents c2id L (tok ex.text) ex.events gpInit
  (p.1, { ex with events := p.2 })

/-! ## `blinker_transform` (strategy `role-head-tail`)

Lines 180-239.  The label axis of all three tensors is the event-type
vocabulary `event2id` (`Lev = len(self.event_labels)`), and the synthetic
trigger role is labelled `e_label + '-触发词'`. -/

structure BlState where
  role_tags : Tensor3
  head_tags : Tensor3
  tail_tags : Tensor3
  warnings : Nat

def blInit : BlState := ⟨zeros3, zeros3, zeros3, 0⟩

def blPairLoop (om : List (Int × Int)) (eid h1 t1 : Nat) : List Role → BlState → BlState
  | [], st => st
  | r2 :: rest, st =>
    match alignRole om r2 with
    | some (h2, t2) =>
      blPairLoop om eid h1 t1 rest
        { st with
          head_tags := setOne st.head_tags eid (min h1 h2) (max h1 h2)
          tail_tags := setOne st.tail_tags eid (min t1 t2) (max t1 t2) }
    | none => blPairLoop om eid h1 t1 rest { st with warnings := st.warnings + 1 }

def blRoleLoop (e2id : String → Option Nat) (Lev : Nat) (om : List (Int × Int))
    (e_label : String) : List Role → BlState → BlState
  | [], st => st
  | r1 :: rest, st =>
    match alignRole om r1 with
    | some (h1, t1) =>
      match e2id e_label with
      | some eid =>
        if eid < Lev then
          blRoleLoop e2id Lev om e_label rest
            (blPairLoop om eid h1 t1 rest { st with role_tags := setOne st.role_tags eid h1 t1 })
        else blRoleLoop e2id Lev om e_label rest { st with warnings := st.warnings + 1 }
      | none => blRoleLoop e2id Lev om e_label rest { st with warnings := st.warnings + 1 }
    | none => blRoleLoop e2id Lev om e_label rest { st with warnings := st.warnings + 1 }

/-- Line 209: `roles.append({'label': e_label + '-' + '触发词', ...})`. -/
def blTriggerRole (e : Event) : Role := { label := e.label ++ "-触发词", offset := e.trigger }

def blEvent (e2id : String → Option Nat) (Lev : Nat) (om : List (Int × Int))
    (e : Event) (st : BlState) : BlState × Event :=
  let roles' := e.roles ++ [blTriggerRole e]
  (blRoleLoop e2id Lev om e.label roles' st, { e with roles := roles' })

def blEvents (e2id : String → Option Nat) (Lev : Nat) (om : List (Int × Int)) :
    List Event → BlState → BlState × List Event
  | [], st => (st, [])
  | e :: es, st =>
    let p := blEvent e2id Lev om e st
    let q := blEvents e2id Lev om es p.1
    (q.1, p.2 :: q.2)

def blinker_transform (e2id : String → Option Nat) (Lev : Nat)
    (tok : String → List (Int × Int)) (ex : Example) : BlState × Example :=
  let p := blEvents e2id Lev (tok ex.text) ex.events blInit
  (p.1, { ex with events := p.2 })

/-! ## `graph_transform` (strategy `head-tail`)

Lines 242-305.  The role tensor has a single label axis; the head/tail tensors
are indexed by the event-type id.  Two deviations from the other encoders:
the `event2id` lookup (line 266) happens *outside* every `try`, so a missing
event label aborts the whole transform; and the pair loop runs over every
ordered pair `j != i` (line 286), writing the *directed* entries
`head_ids[e_id][h1][h2]` and `tail_ids[e_id][t1][t2]` without `min`/`max`
(lines 294-295). -/

structure GrState where
  role_ids : Tensor3
  head_ids : Tensor3
  tail_ids : Tensor3
  warnings : Nat

def grInit : GrState := ⟨zeros3, zeros3, zeros3, 0⟩

/-- Inner loop of `graph_transform` (lines 284-298); `j` counts the position
of the head of the remaining list, `i` is the position of `role1`. -/
def grPairLoop (om : List (Int × Int)) (Lev eid h1 t1 i : Nat) :
    List Role → Nat → GrState → GrState
  | [], _, st => st
  | r2 :: rest, j, st =>
    if j = i then grPairLoop om Lev eid h1 t1 i rest (j + 1) st
    else
      match alignRole om r2 with
      | some (h2, t2) =>
        if eid < Lev then
          grPairLoop om Lev eid h1 t1 i rest (j + 1)
            { st with
              head_ids := setOne st.head_ids eid h1 h2
              tail_ids := setOne st.tail_ids eid t1 t2 }
        else grPairLoop om Lev eid h1 t1 i rest (j + 1) { st with warnings := st.warnings + 1 }
      | none => grPairLoop om Lev eid h1 t1 i rest (j + 1) { st with warnings := st.warnings + 1 }

/-- Outer loop of `graph_transform` (lines 273-298); the pair loop re-scans
the whole extended role list `allRoles`. -/
def grRoleLoop (om : List (Int × Int)) (Lev eid : Nat) (allRoles : List Role) :
    List Role → Nat → GrState → GrState
  | [], _, st => st
  | r1 :: rest, i, st =>
    match alignRole om r1 with
    | some (h1, t1) =>
      grRoleLoop om Lev eid allRoles rest (i + 1)
        (grPairLoop om Lev eid h1 t1 i allRoles 0
          { st with role_ids := setOne st.role_ids 0 h1 t1 })
    | none => grRoleLoop om Lev eid allRoles rest (i + 1) { st with warnings := st.warnings + 1 }

/-- Lines 264-298 for one event.  The `event2id` lookup is unguarded, so its
failure is fatal (`none`). -/
def grEvent (e2id : String → Option Nat) (Lev : Nat) (om : List (Int × Int))
    (e : Event) (st : GrState) : Option (GrState × Event) :=
  match e2id e.label with
  | some eid =>
    let roles' := e.roles ++ [triggerRole e]
    some (grRoleLoop om Lev eid roles' roles' 0 st, { e with roles := roles' })
  | none => none

def grEvents (e2id : String → Option Nat) (Lev : Nat) (om : List (Int × Int)) :
    List Event → GrState → Option (GrState × List Event)
  | [], st => some (st, [])
  | e :: es, st => do
    let p ← grEvent e2id Lev om e st
    let q ← grEvents e2id Lev om es p.1
    some (q.1, p.2 :: q.2)

def graph_transform (e2id : String → Option Nat) (Lev : Nat)
    (tok : String → List (Int × Int)) (ex : Example) : Option (GrState × Example) := do
  let p ← grEvents e2id Lev (tok ex.text) ex.events grInit
  some (p.1, { ex with events := p.2 })

/-! ## `sparse_transform` (strategy `sparse-gplinker`, training split)

Lines 308-376.  Same traversal and skip rules as `gplinker_transform`, but the
marks are collected into coordinate sets, and `assert` statements (lines 336,
342, 355) guard `end > start` *outside* the `try` blocks: their failure aborts
the transform (`none`). -/

structure SpState where
  role_tags : Nat → Finset (Nat × Nat)
  head_tags : Finset (Nat × Nat)
  tail_tags : Finset (Nat × Nat)
  warnings : Nat

def spInit : SpState := ⟨fun _ => ∅, ∅, ∅, 0⟩

/-- Inner loop (lines 351-363). -/
def spPairLoop (om : List (Int × Int)) (h1 t1 : Nat) : List Role → SpState → Option SpState
  | [], st => some st
  | r2 :: rest, st =>
    if r2.offset.1 ≤ r2.offset.2 - 1 then
      match alignRole om r2 with
      | some (h2, t2) =>
        spPairLoop om h1 t1 rest
          { st with
            head_tags := insert (min h1 h2, max h1 h2) st.head_tags
            tail_tags := insert (min t1 t2, max t1 t2) st.tail_tags }
      | none => spPairLoop om h1 t1 rest { st with warnings := st.warnings + 1 }
    else none

/-- Outer loop (lines 338-363).  The `combined2id` lookup and the
`role_tags[...]` list indexing sit inside the `try` (line 346), so their
failures warn and skip exactly like an alignment failure. -/
def spRoleLoop (c2id : String × String → Option Nat) (L : Nat) (om : List (Int × Int))
    (e_label : String) : List Role → SpState → Option SpState
  | [], st => some st
  | r1 :: rest, st =>
    if r1.offset.1 ≤ r1.offset.2 - 1 then
      match alignRole om r1 with
      | some (h1, t1) =>
        match c2id (e_label, r1.label) with
        | some lid =>
          if lid < L then do
            let st' ← spPairLoop om h1 t1 rest
              { st with
                role_tags := fun l =>
                  if l = lid then insert (h1, t1) (st.role_tags l) else st.role_tags l }
            spRoleLoop c2id L om e_label rest st'
          else spRoleLoop c2id L om e_label rest { st with warnings := st.warnings + 1 }
        | none => spRoleLoop c2id L om e_label rest { st with warnings := st.warnings + 1 }
      | none => spRoleLoop c2id L om e_label rest { st with warnings := st.warnings + 1 }
    else none

/-- Lines 329-363 for one event, with the `assert trigger_tail > trigger_head`
of line 336. -/
def spEvent (c2id : String × String → Option Nat) (L : Nat) (om : List (Int × Int))
    (e : Event) (st : SpState) : Option (SpState × Event) :=
  if e.trigger.1 < e.trigger.2 then
    let roles' := e.roles ++ [triggerRole e]
    (spRoleLoop c2id L om e.label roles' st).map fun st' => (st', { e with roles := roles' })
  else none

def spEvents (c2id : String × String → Option Nat) (L : Nat) (om : List (Int × Int)) :
    List Event → SpState → Option (SpState × List Event)
  | [], st => some (st, [])
  | e :: es, st => do
    let p ← spEvent c2id L om e st
    let q ← spEvents c2id L om es p.1
    some (q.1, p.2 :: q.2)

/-- The event loop of `sparse_transform` for one example, before the
`(0, 0)`-sentinel insertion of lines 364-366. -/
def sparse_collect (c2id : String × String → Option Nat) (L : Nat)
    (tok : String → List (Int × Int)) (ex : Example) : Option (SpState × Example) := do
  let p ← spEvents c2id L (tok ex.text) ex.events spInit
  some (p.1, { ex with events := p.2 })

/-- Lines 364-366: an empty coordinate set receives the `(0, 0)` padding
sentinel. -/
def withSentinel (s : Finset (Nat × Nat)) : Finset (Nat × Nat) :=
  if s = ∅ then {(0, 0)} else s

/-- `sparse_transform` up to (but not including) the order-nondeterministic
`sequence_padding` of the coordinate sets into rectangular arrays: the
per-label role coordinate sets, the head set and the tail set, each with the
sentinel inserted, plus the mutated example. -/
def sparse_transform (c2id : String × String → Option Nat) (L : Nat)
    (tok : String → List (Int × Int)) (ex : Example) :
    Option ((List (Finset (Nat × Nat)) × Finset (Nat × Nat) × Finset (Nat × Nat)) × Example) :=
  (sparse_collect c2id L tok ex).map fun p =>
    (((List.range L).map fun l => withSentinel (p.1.role_tags l),
      withSentinel p.1.head_tags, withSentinel p.1.tail_tags), p.2)

def DSEquiv (d : GpState) (s : SpState) : Prop :=
  (∀ l i j, d.role_ids l i j = 1 ↔ (i, j) ∈ s.role_tags l) ∧
  (∀ l i j, d.head_ids l i j = 1 ↔ (l = 0 ∧ (i, j) ∈ s.head_tags)) ∧
  (∀ l i j, d.tail_ids l i j = 1 ↔ (l = 0 ∧ (i, j) ∈ s.tail_tags)) ∧
  d.warnings = s.warnings

def alignedB (om : List (Int × Int)) (r : Role) : Bool := (alignRole om r).isSome

def filterAligned (om : List (Int × Int)) (ex : Example) : Example :=
  { ex with events := ex.events.map fun e => { e with roles := e.roles.filter (alignedB om) } }

/-! ## Label vocabulary builders (lines 51-116) -/

/-- `np.concatenate` raises `ValueError: need at least one array to
concatenate` on an empty sequence; modelled as `none`. -/
def np_concatenate : List (List α) → Option (List α)
  | [] => none
  | ls => some ls.flatten

/-- `pandas.Series.drop_duplicates` / `DataFrame.drop_duplicates`: keep the
first occurrence of each element. -/
def dedupFirst [DecidableEq α] (l : List α) : List α :=
  l.foldl (fun acc a => if a ∈ acc then acc else acc ++ [a]) []

/-- `event_labels` (lines 51-55): labels of all events of the training
corpus, duplicates dropped on first occurrence. -/
def event_labels (c : List Example) : Option (List String) :=
  (np_concatenate (c.map Example.events)).map fun evs => dedupFirst (evs.map Event.label)

/-- `event2id` (lines 58-60): `{l: i for i, l in enumerate(event_labels)}`. -/
def event2id (c : List Example) : Option (List (String × Nat)) :=
  (event_labels c).map fun ls => ls.enum.map fun p => (p.2, p.1)

/-- `trigger_labels` (lines 62-65). -/
def trigger_labels (c : List Example) : Option (List String) :=
  (event_labels c).map fun ls => ls.map (· ++ "-触发词")

/-- `role_labels` (lines 68-72): a second `np.concatenate` flattens the roles
of all events (and fails when there is no event at all). -/
def role_labels (c : List Example) : Option (List String) := do
  let evs ← np_concatenate (c.map Example.events)
  let rls ← np_concatenate (evs.map Event.roles)
  some (dedupFirst (rls.map Role.label))

def role2id (c : List Example) : Option (List (String × Nat)) :=
  (role_labels c).map fun ls => ls.enum.map fun p => (p.2, p.1)

/-- `ent_labels` (lines 80-83): `sorted(trigger_labels + role_labels)`;
Python's `sorted` is modelled as insertion sort over the code-point order
(any comparison sort agrees on the result). -/
def ent_labels (c : List Example) : Option (List String) := do
  let tl ← trigger_labels c
  let rl ← role_labels c
  some (List.insertionSort strle (tl ++ rl))

def ent2id (c : List Example) : Option (List (String × Nat)) :=
  (ent_labels c).map fun ls => ls.enum.map fun p => (p.2, p.1)

/-- `get_labels` inside `combined_labels` (lines 96-104): the trigger pair
first, then each role pair not already present, in order. -/
def get_labels (e : Event) : List (String × String) :=
  e.roles.foldl
    (fun acc r => if (e.label, r.label) ∈ acc then acc else acc ++ [(e.label, r.label)])
    [(e.label, "触发词")]

/-- `combined_labels` (lines 90-107): flatten the per-event pair lists with
`np.concatenate`, drop duplicates keeping the first occurrence, sort. -/
def combined_labels (c : List Example) : Option (List (String × String)) := do
  let evs ← np_concatenate (c.map Example.events)
  let lbls ← np_concatenate (evs.map get_labels)
  some (List.insertionSort pairle (dedupFirst lbls))

def combined2id (c : List Example) : Option (List ((String × String) × Nat)) :=
  (combined_labels c).map fun ls => ls.enum.map fun p => (p.2, p.1)

/-- The combined vocabulary as the spec words it: all
`(event_label, role_label)` pairs across all events of the training data,
always including `(event_label, '触发词')`, de-duplicated, then sorted. -/
def combined_labels_spec (c : List Example) : List (String × String) :=
  List.insertionSort pairle
    (dedupFirst ((c.map Example.events).flatten.flatMap fun e =>
      (e.label, "触发词") :: e.roles.map fun r => (e.label, r.label)))

/-! ## `setup` routing (lines 33-48) -/

inductive TransformKind where
  | gplinker
  | blinker
  | graph
  | sparse
deriving DecidableEq, Repr

/-- Which encoder each dataset split receives.  `dataset.set_transform`
applies to every split; `dataset['train']/'validation'].set_transform` to a
single one. -/
structure SplitTransforms where
  train : TransformKind
  validation : TransformKind
deriving DecidableEq, Repr

/-- The `if/elif` chain of `setup` (lines 35-48); an unknown strategy name
falls through and installs nothing (`__init__` has already rejected it). -/
def setup : String → Option SplitTransforms
  | "event-role-head-tail" => some ⟨.gplinker, .gplinker⟩
  | "role-head-tail" => some ⟨.blinker, .blinker⟩
  | "head-tail" => some ⟨.graph, .graph⟩
  | "sparse-gplinker" => some ⟨.sparse, .gplinker⟩
  | _ => none

/-! ## Threshold comparisons of the prediction/decoding paths

Logits are modelled as rationals; only order comparisons are at stake. -/

/-- `biaffine.py` line 64: `pred = logits.ge(self.hparams.threshold)`. -/
def biaffine_step_pred (logit threshold : ℚ) : Bool := logit ≥ threshold

/-- `biaffine.py` line 110: `torch.nonzero(preds > threshold)` — an element
is selected iff its logit strictly exceeds the configured threshold. -/
def biaffine_predict_select (logit threshold : ℚ) : Bool := logit > threshold

/-- `bert_global_pointer.py` line 50: `pred = logits.ge(self.hparams.threshold)`. -/
def bgp_shared_step_pred (logit threshold : ℚ) : Bool := logit ≥ threshold

/-- `bert_global_pointer.py` line 101: `torch.nonzero(logits > 0)` — the
configured `threshold` hyperparameter (default `0.5`) is not consulted. -/
def bgp_predict_select (logit : ℚ) : Bool := logit > 0

/-! ## Concrete inputs used by witnesses and counterexamples -/

/-- A four-token offset map: one character per token. -/
def omW : List (Int × Int) := [(0, 1), (1, 2), (2, 3), (3, 4)]

def tokW : String → List (Int × Int) := fun _ => omW

/-- A well-formed example: one event with one role and a trigger. -/
def exW : Example := ⟨"abcd", [⟨"E", (0, 1), [⟨"R", (1, 3)⟩]⟩]⟩

def c2idW : String × String → Option Nat :=
  fun p => if p = ("E", "R") then some 0 else if p = ("E", "触发词") then some 1 else none

def e2idW : String → Option Nat := fun s => if s = "E" then some 0 else none

/-- The scenario corpus of spec §8: one `Layoff` event with an `Employer`
role. -/
def corpusLayoff : List Example :=
  [⟨"A company laid off 650 people", [⟨"Layoff", (2, 10), [⟨"Employer", (0, 1)⟩]⟩]⟩]

/-- Two aligned roles: `rA5` covers token 0, `rB5` covers token 1. -/
def rA5 : Role := ⟨"A", (0, 1)⟩

def rB5 : Role := ⟨"B", (1, 2)⟩

def om5 : List (Int × Int) := [(0, 1), (1, 2)]

/-- An example whose single role has a degenerate span `(2, 2)`
(`end = start`). -/
def exC8 : Example := ⟨"t", [⟨"E", (0, 1), [⟨"R", (2, 2)⟩]⟩]⟩

def omC8 : List (Int × Int) := [(0, 1), (1, 2), (2, 3)]

def tokC8 : String → List (Int × Int) := fun _ => omC8

/-! ## Helper lemmas: concatenation and de-duplication -/

theorem setOne_eq_one_iff (t : Tensor3) (l i j l' i' j' : Nat) :
    setOne t l i j l' i' j' = 1 ↔ (l' = l ∧ i' = i ∧ j' = j) ∨ t l' i' j' = 1 := by
  unfold setOne
  by_cases h : l' = l ∧ i' = i ∧ j' = j <;> simp [h]

theorem zeros3_ne_one (l i j : Nat) : ¬ zeros3 l i j = 1 := by simp [zeros3]

theorem np_concatenate_eq_some {α : Type} {ls : List (List α)} {out : List α}
    (h : np_concatenate ls = some out) : out = ls.flatten := by
  cases ls with
  | nil => simp [np_concatenate] at h
  | cons x xs =>
    unfold np_concatenate at h
    exact (Option.some_injective _ h).symm

theorem mem_dedupFirst_aux {α : Type} [DecidableEq α] (a : α) :
    ∀ (l : List α) (acc : List α),
      (a ∈ l.foldl (fun acc x => if x ∈ acc then acc else acc ++ [x]) acc ↔ a ∈ acc ∨ a ∈ l)
  | [], acc => by simp
  | x :: l, acc => by
    rw [List.foldl_cons, mem_dedupFirst_aux a l]
    by_cases h : x ∈ acc
    · rw [if_pos h]
      constructor
      · rintro (h' | h')
        · exact Or.inl h'
        · exact Or.inr (List.mem_cons_of_mem _ h')
      · rintro (h' | h')
        · exact Or.inl h'
        · rcases List.mem_cons.mp h' with rfl | h'
          · exact Or.inl h
          · exact Or.inr h'
    · rw [if_neg h]
      simp only [List.mem_append, List.mem_singleton, List.mem_cons]
      tauto

theorem mem_dedupFirst {α : Type} [DecidableEq α] {a : α} {l : List α} :
    a ∈ dedupFirst l ↔ a ∈ l := by
  unfold dedupFirst
  rw [mem_dedupFirst_aux a l []]
  simp

theorem nodup_dedupFirst_aux {α : Type} [DecidableEq α] :
    ∀ (l : List α) (acc : List α), acc.Nodup →
      (l.foldl (fun acc x => if x ∈ acc then acc else acc ++ [x]) acc).Nodup
  | [], _, h => h
  | x :: l, acc, h => by
    rw [List.foldl_cons]
    apply nodup_dedupFirst_aux l
    by_cases hx : x ∈ acc
    · rwa [if_pos hx]
    · rw [if_neg hx]
      exact List.nodup_append.mpr ⟨h, List.nodup_singleton x, by simpa using hx⟩

theorem nodup_dedupFirst {α : Type} [DecidableEq α] (l : List α) : (dedupFirst l).Nodup :=
  nodup_dedupFirst_aux l [] List.nodup_nil

theorem mem_get_labels_aux (elbl : String) (a : String × String) :
    ∀ (rs : List Role) (acc : List (String × String)),
      (a ∈ rs.foldl
          (fun acc r => if (elbl, r.label) ∈ acc then acc else acc ++ [(elbl, r.label)]) acc ↔
        a ∈ acc ∨ ∃ r ∈ rs, a = (elbl, r.label))
  | [], acc => by simp
  | x :: rs, acc => by
    rw [List.foldl_cons, mem_get_labels_aux elbl a rs]
    by_cases h : (elbl, x.label) ∈ acc
    · rw [if_pos h]
      constructor
      · rintro (h' | h')
        · exact Or.inl h'
        · exact Or.inr ⟨h'.choose, List.mem_cons_of_mem _ h'.choose_spec.1, h'.choose_spec.2⟩
      · rintro (h' | ⟨r, hr, rfl⟩)
        · exact Or.inl h'
        · rcases List.mem_cons.mp hr with rfl | hr
          · exact Or.inl h
          · exact Or.inr ⟨r, hr, rfl⟩
    · rw [if_neg h]
      simp only [List.mem_append, List.mem_singleton, List.mem_cons, List.mem_nil_iff, or_false]
      constructor
      · rintro (h' | h')
        · rcases h' with h' | h'
          · exact Or.inl h'
          · exact Or.inr ⟨x, Or.inl rfl, h'⟩
        · exact Or.inr ⟨h'.choose, Or.inr h'.choose_spec.1, h'.choose_spec.2⟩
      · rintro (h' | ⟨r, hr | hr, h''⟩)
        · exact Or.inl (Or.inl h')
        · exact Or.inl (Or.inr (hr ▸ h''))
        · exact Or.inr ⟨r, hr, h''⟩

theorem mem_get_labels {e : Event} {a : String × String} :
    a ∈ get_labels e ↔ a = (e.label, "触发词") ∨ ∃ r ∈ e.roles, a = (e.label, r.label) := by
  unfold get_labels
  rw [mem_get_labels_aux e.label a e.roles]
  simp

theorem charListLe_total : ∀ as bs, charListLe as bs = true ∨ charListLe bs as = true
  | [], _ => Or.inl rfl
  | _ :: _, [] => Or.inr rfl
  | a :: as, b :: bs => by
    rcases lt_trichotomy a b with h | h | h
    · left; simp [charListLe, h]
    · subst h
      rcases charListLe_total as bs with h' | h' <;> simp [charListLe, h', lt_irrefl]
    · right; simp [charListLe, h, not_lt.mpr (le_of_lt h), ne_of_gt h]

theorem charListLe_antisymm : ∀ as bs, charListLe as bs = true → charListLe bs as = true → as = bs
  | [], [], _, _ => rfl
  | [], _ :: _, _, h => by simp [charListLe] at h
  | _ :: _, [], h, _ => by simp [charListLe] at h
  | a :: as, b :: bs, h₁, h₂ => by
    rcases lt_trichotomy a b with h | h | h
    · simp [charListLe, h, not_lt.mpr (le_of_lt h), ne_of_gt h] at h₂
    · subst h
      simp only [charListLe, lt_irrefl, if_false, if_pos rfl, if_neg (lt_irrefl a)] at h₁ h₂
      exact congrArg (a :: ·) (charListLe_antisymm as bs h₁ h₂)
    · simp [charListLe, not_lt.mpr (le_of_lt h), ne_of_gt h] at h₁

theorem charListLe_trans : ∀ as bs cs, charListLe as bs = true → charListLe bs cs = true →
    charListLe as cs = true
  | [], _, _, _, _ => rfl
  | _ :: _, [], _, h, _ => by simp [charListLe] at h
  | _ :: _, _ :: _, [], _, h => by simp [charListLe] at h
  | a :: as, b :: bs, c :: cs, h₁, h₂ => by
    rcases lt_trichotomy a b with hab | rfl | hab
    · rcases lt_trichotomy b c with hbc | rfl | hbc
      · simp [charListLe, lt_trans hab hbc]
      · simp [charListLe, hab]
      · simp [charListLe, not_lt.mpr (le_of_lt hbc), ne_of_gt hbc] at h₂
    · rcases lt_trichotomy a c with hbc | rfl | hbc
      · simp [charListLe, hbc]
      · simp only [charListLe, lt_irrefl, if_false, if_pos rfl, if_neg (lt_irrefl a)] at h₁ h₂ ⊢
        exact charListLe_trans as bs cs h₁ h₂
      · simp [charListLe, not_lt.mpr (le_of_lt hbc), ne_of_gt hbc] at h₂
    · simp [charListLe, not_lt.mpr (le_of_lt hab), ne_of_gt hab] at h₁

theorem strLe_total (a b : String) : strLe a b = true ∨ strLe b a = true :=
  charListLe_total a.data b.data

theorem strLe_antisymm {a b : String} (h₁ : strLe a b = true) (h₂ : strLe b a = true) : a = b := by
  cases a; cases b
  exact congrArg String.mk (charListLe_antisymm _ _ h₁ h₂)

theorem strLe_trans {a b c : String} (h₁ : strLe a b = true) (h₂ : strLe b c = true) :
    strLe a c = true :=
  charListLe_trans a.data b.data c.data h₁ h₂

instance : IsTotal String strle := ⟨strLe_total⟩

instance : IsTrans String strle := ⟨fun _ _ _ => strLe_trans⟩

instance : IsAntisymm String strle := ⟨fun _ _ => strLe_antisymm⟩

instance : IsTotal (String × String) pairle := by
  constructor
  intro a b
  unfold pairle
  by_cases h : a.1 = b.1
  · simp [h, strLe_total a.2 b.2]
  · simp [h, Ne.symm h, strLe_total a.1 b.1]

instance : IsTrans (String × String) pairle := by
  constructor
  intro a b c hab hbc
  unfold pairle at hab hbc ⊢
  by_cases h₁ : a.1 = b.1 <;> by_cases h₂ : b.1 = c.1
  · rw [if_pos h₁] at hab
    rw [if_pos h₂] at hbc
    rw [if_pos (h₁.trans h₂)]
    exact strLe_trans hab hbc
  · rw [if_pos h₁] at hab
    rw [if_neg h₂] at hbc
    rw [if_neg (fun h => h₂ (h₁.symm.trans h))]
    exact h₁ ▸ hbc
  · rw [if_neg h₁] at hab
    rw [if_pos h₂] at hbc
    rw [if_neg (fun h => h₁ (h.trans h₂.symm))]
    exact h₂ ▸ hab
  · rw [if_neg h₁] at hab
    rw [if_neg h₂] at hbc
    by_cases h₃ : a.1 = c.1
    · exact absurd (strLe_antisymm hab (h₃ ▸ hbc)) h₁
    · rw [if_neg h₃]; exact strLe_trans hab hbc

instance : IsAntisymm (String × String) pairle := by
  constructor
  intro a b hab hba
  unfold pairle at hab hba
  by_cases h : a.1 = b.1
  · simp only [h, if_pos rfl, if_pos] at hab hba
    exact Prod.ext h (strLe_antisymm hab (by simpa [h] using hba))
  · rw [if_neg h] at hab
    rw [if_neg (Ne.symm h)] at hba
    exact absurd (strLe_antisymm hab hba) h

theorem insertionSort_dedupFirst_ext {A B : List (String × String)}
    (h : ∀ x, x ∈ A ↔ x ∈ B) :
    List.insertionSort pairle (dedupFirst A) = List.insertionSort pairle (dedupFirst B) := by
  refine List.eq_of_perm_of_sorted ?_ (List.sorted_insertionSort pairle _)
    (List.sorted_insertionSort pairle _)
  refine ((List.perm_insertionSort _ _).trans ?_).trans (List.perm_insertionSort _ _).symm
  exact (List.perm_ext_iff_of_nodup (nodup_dedupFirst A) (nodup_dedupFirst B)).mpr
    (fun a => by rw [mem_dedupFirst, mem_dedupFirst]; exact h a)

/-- C3: for every training corpus on which the builder succeeds, the combined
vocabulary equals the de-duplicated collection of `(event_label, role_label)`
pairs over all events, with the `(event_label, '触发词')` trigger pair
included for every event, sorted. -/
theorem combined_vocab_is_sorted_dedup_pairs (c : List Example) (L : List (String × String))
    (h : combined_labels c = some L) : L = combined_labels_spec c := by
  unfold combined_labels at h
  cases hc : np_concatenate (c.map Example.events) with
  | none => rw [hc] at h; exact absurd h (by simp)
  | some evs =>
    rw [hc] at h
    simp only [Option.bind_eq_bind, Option.some_bind] at h
    cases hl : np_concatenate (evs.map get_labels) with
    | none => rw [hl] at h; exact absurd h (by simp)
    | some lbls =>
      rw [hl] at h
      simp only [Option.bind_eq_bind, Option.some_bind, Option.some.injEq] at h
      subst h
      have hevs := np_concatenate_eq_some hc
      have hlbls := np_concatenate_eq_some hl
      subst hlbls
      subst hevs
      unfold combined_labels_spec
      apply insertionSort_dedupFirst_ext
      intro x
      simp only [List.mem_flatten, List.mem_map, List.mem_flatMap, List.mem_cons]
      constructor
      · rintro ⟨l, ⟨e, he, rfl⟩, hx⟩
        rcases mem_get_labels.mp hx with rfl | ⟨r, hr, rfl⟩
        · exact ⟨e, he, Or.inl rfl⟩
        · exact ⟨e, he, Or.inr ⟨r, hr, rfl⟩⟩
      · rintro ⟨e, he, rfl | ⟨r, hr, rfl⟩⟩
        · exact ⟨get_labels e, ⟨e, he, rfl⟩, mem_get_labels.mpr (Or.inl rfl)⟩
        · exact ⟨get_labels e, ⟨e, he, rfl⟩, mem_get_labels.mpr (Or.inr ⟨r, hr, rfl⟩)⟩

/-- C3 witness: on the Layoff scenario corpus the built vocabulary is the
sorted pair list and contains both the trigger pair and the Employer pair. -/
theorem combined_vocab_is_sorted_dedup_pairs_witness :
    combined_labels corpusLayoff = some [("Layoff", "Employer"), ("Layoff", "触发词")] ∧
    ([("Layoff", "Employer"), ("Layoff", "触发词")] : List (String × String)) =
      combined_labels_spec corpusLayoff ∧
    ("Layoff", "触发词") ∈ combined_labels_spec corpusLayoff ∧
    ("Layoff", "Employer") ∈ combined_labels_spec corpusLayoff := by
  have h1 : combined_labels corpusLayoff =
      some [("Layoff", "Employer"), ("Layoff", "触发词")] := by decide
  exact ⟨h1, combined_vocab_is_sorted_dedup_pairs corpusLayoff _ h1, by decide, by decide⟩

/-- C2: building any of the four label vocabularies twice from the same
corpus presented in the same order yields identical label-to-id mappings. -/
theorem vocab_build_deterministic (c₁ c₂ : List Example) (h : c₁ = c₂) :
    event2id c₁ = event2id c₂ ∧ role2id c₁ = role2id c₂ ∧ ent2id c₁ = ent2id c₂ ∧
      combined2id c₁ = combined2id c₂ := by
  subst h
  exact ⟨rfl, rfl, rfl, rfl⟩

/-- C2 witness: two builds from the Layoff corpus agree. -/
theorem vocab_build_deterministic_witness :
    event2id corpusLayoff = event2id corpusLayoff ∧
    role2id corpusLayoff = role2id corpusLayoff ∧
    ent2id corpusLayoff = ent2id corpusLayoff ∧
    combined2id corpusLayoff = combined2id corpusLayoff :=
  vocab_build_deterministic corpusLayoff corpusLayoff rfl

/-- C7: on an empty training corpus every vocabulary builder propagates the
`ValueError` that `np.concatenate` raises on an empty input (modelled as
`none`) instead of returning an empty vocabulary. -/
theorem empty_corpus_vocab_raises :
    event_labels [] = none ∧ role_labels [] = none ∧ ent_labels [] = none ∧
      combined_labels [] = none :=
  ⟨rfl, rfl, rfl, rfl⟩

/-- C10: the strategy `sparse-gplinker` installs the sparse encoder on the
training split only and the dense combined encoder on the validation split,
while every other strategy installs the same encoder on both splits. -/
theorem sparse_gplinker_split_routing :
    setup "sparse-gplinker" = some ⟨TransformKind.sparse, TransformKind.gplinker⟩ ∧
    TransformKind.sparse ≠ TransformKind.gplinker ∧
    setup "event-role-head-tail" = some ⟨TransformKind.gplinker, TransformKind.gplinker⟩ ∧
    setup "role-head-tail" = some ⟨TransformKind.blinker, TransformKind.blinker⟩ ∧
    setup "head-tail" = some ⟨TransformKind.graph, TransformKind.graph⟩ := by
  exact ⟨by decide, by decide, by decide, by decide, by decide⟩

/-- C6 counterexample: the training-step prediction path selects a logit
exactly equal to the threshold (`ge`), and the global-pointer predict path
selects a logit above `0` even when it does not exceed the configured
threshold — so the one strictly-greater-than-threshold rule is not followed
consistently by every path. -/
theorem threshold_rule_cex :
    biaffine_step_pred 1 1 = true ∧ ¬ ((1 : ℚ) > 1) ∧
    bgp_predict_select 1 = true ∧ ¬ ((1 : ℚ) > (3 : ℚ)) := by
  decide

/-- C6 amended: each decoding path follows one fixed comparison rule, but not
the same one: `biaffine.predict` selects logits strictly greater than the
configured threshold, `bert_global_pointer.predict` selects logits strictly
greater than `0` (ignoring the configured threshold), and both training-step
paths use greater-or-equal. -/
theorem threshold_rules_per_path (l t : ℚ) :
    (biaffine_predict_select l t = true ↔ l > t) ∧
    (bgp_predict_select l = true ↔ l > 0) ∧
    (biaffine_step_pred l t = true ↔ t ≤ l) ∧
    (bgp_shared_step_pred l t = true ↔ t ≤ l) := by
  simp [biaffine_predict_select, bgp_predict_select, biaffine_step_pred, bgp_shared_step_pred,
    ge_iff_le]

/-- C5 counterexample: in `graph_transform` no `min`/`max` ordering is
applied: marking the aligned pair (A, B) (role A at token 0 as `role1`, role
B at token 1 as `role2`) writes head entry `(0, 1)`, while marking (B, A)
writes `(1, 0)` — a different matrix entry, refuting the claim for the
`head-tail` strategy. -/
theorem pair_marking_symmetric_cex :
    (grPairLoop om5 1 0 0 0 0 [rB5] 1 grInit).head_ids 0 0 1 = 1 ∧
    (grPairLoop om5 1 0 1 1 0 [rA5] 1 grInit).head_ids 0 0 1 = 0 := by
  exact ⟨by decide, by decide⟩

/-- C5 amended: for the three encoders that apply `min`/`max` before indexing
(`gplinker_transform`, `blinker_transform`, `sparse_transform`), marking the
aligned pair (A, B) produces exactly the same state as marking (B, A);
`graph_transform` applies no `min`/`max` and instead writes the directed
entries `(h1, h2)`/`(t1, t2)`. -/
theorem pair_marking_symmetric (om : List (Int × Int)) (st : GpState) (stb : BlState)
    (sts : SpState) (stg : GrState) (Lev eid h1 t1 h2 t2 : Nat) (rA rB : Role)
    (ha : alignRole om rA = some (h1, t1)) (hb : alignRole om rB = some (h2, t2))
    (hwa : WFRole rA) (hwb : WFRole rB) (hLev : eid < Lev) :
    gpPairLoop om h1 t1 [rB] st = gpPairLoop om h2 t2 [rA] st ∧
    blPairLoop om eid h1 t1 [rB] stb = blPairLoop om eid h2 t2 [rA] stb ∧
    spPairLoop om h1 t1 [rB] sts = spPairLoop om h2 t2 [rA] sts ∧
    (grPairLoop om Lev eid h1 t1 0 [rB] 1 stg).head_ids eid h1 h2 = 1 ∧
    (grPairLoop om Lev eid h1 t1 0 [rB] 1 stg).tail_ids eid t1 t2 = 1 := by
  have hwa' : rA.offset.1 ≤ rA.offset.2 - 1 := by
    unfold WFRole at hwa
    omega
  have hwb' : rB.offset.1 ≤ rB.offset.2 - 1 := by
    unfold WFRole at hwb
    omega
  refine ⟨?_, ?_, ?_, ?_, ?_⟩
  · simp only [gpPairLoop, ha, hb]
    rw [min_comm h2 h1, max_comm h2 h1, min_comm t2 t1, max_comm t2 t1]
  · simp only [blPairLoop, ha, hb]
    rw [min_comm h2 h1, max_comm h2 h1, min_comm t2 t1, max_comm t2 t1]
  · simp only [spPairLoop, if_pos hwa', if_pos hwb', ha, hb]
    rw [min_comm h2 h1, max_comm h2 h1, min_comm t2 t1, max_comm t2 t1]
  · simp only [grPairLoop, if_neg (by omega : ¬ (1 : Nat) = 0), hb, if_pos hLev]
    simp [setOne]
  · simp only [grPairLoop, if_neg (by omega : ¬ (1 : Nat) = 0), hb, if_pos hLev]
    simp [setOne]

/-- C5 witness: the symmetry at the concrete aligned roles `rA5` (token 0)
and `rB5` (token 1). -/
theorem pair_marking_symmetric_witness :
    gpPairLoop om5 0 0 [rB5] gpInit = gpPairLoop om5 1 1 [rA5] gpInit ∧
    blPairLoop om5 0 0 0 [rB5] blInit = blPairLoop om5 0 1 1 [rA5] blInit ∧
    spPairLoop om5 0 0 [rB5] spInit = spPairLoop om5 1 1 [rA5] spInit ∧
    (grPairLoop om5 1 0 0 0 0 [rB5] 1 grInit).head_ids 0 0 1 = 1 ∧
    (grPairLoop om5 1 0 0 0 0 [rB5] 1 grInit).tail_ids 0 0 1 = 1 :=
  pair_marking_symmetric om5 gpInit blInit spInit grInit 1 0 0 0 1 1 rA5 rB5
    (by decide) (by decide) (by decide) (by decide) (by decide)

/-- C8 counterexample: on an example whose role has the degenerate span
`(2, 2)` (`end = start`), `gplinker_transform` runs no assertion at all: it
aligns `end - 1 = 1` to token 1 and `start = 2` to token 2 and happily marks
the role cell `(0, 2, 1)`, while `sparse_transform` — the only encoder with
the `end > start` assertions — aborts on the same input.  Hence no assertion
guarding `end > start` is executed in every encoder. -/
theorem end_exclusive_assert_cex :
    (gplinker_transform c2idW 2 tokC8 exC8).1.role_ids 0 2 1 = 1 ∧
    sparse_collect c2idW 2 tokC8 exC8 = none := by
  constructor
  · decide
  · rfl

/-- C8 amended: every encoder obtains a role's last covered token by aligning
`end - 1` (the marked cell's column is the alignment of `offset.2 - 1`), but
only `sparse_transform` executes an assertion guarding `end > start` before
the conversion; the three dense encoders perform it unguarded. -/
theorem end_exclusive_alignment (c2id : String × String → Option Nat)
    (e2id : String → Option Nat) (L Lev : Nat) (om : List (Int × Int)) (lbl : String)
    (stG : GpState) (stB : BlState) (stR : GrState) (stS : SpState) (r rbad : Role)
    (rs : List Role) (h t lid eid : Nat)
    (hh : char_idx_to_token r.offset.1 om = some h)
    (ht : char_idx_to_token (r.offset.2 - 1) om = some t)
    (hlid : c2id (lbl, r.label) = some lid) (hL : lid < L)
    (heid : e2id lbl = some eid) (hLev : eid < Lev)
    (hbad : rbad.offset.2 ≤ rbad.offset.1) :
    (gpRoleLoop c2id L om lbl [r] stG).role_ids lid h t = 1 ∧
    (blRoleLoop e2id Lev om lbl [r] stB).role_tags eid h t = 1 ∧
    (grRoleLoop om Lev eid [r] [r] 0 stR).role_ids 0 h t = 1 ∧
    spRoleLoop c2id L om lbl (rbad :: rs) stS = none := by
  have halign : alignRole om r = some (h, t) := by
    unfold alignRole
    rw [hh, ht]
  refine ⟨?_, ?_, ?_, ?_⟩
  · simp only [gpRoleLoop, halign, hlid, if_pos hL, gpPairLoop, setOne]
    simp
  · simp only [blRoleLoop, halign, heid, if_pos hLev, blPairLoop, setOne]
    simp
  · simp only [grRoleLoop, halign, grPairLoop, if_pos rfl]
    simp [setOne]
  · simp only [spRoleLoop, if_neg (by omega : ¬ rbad.offset.1 ≤ rbad.offset.2 - 1)]

/-- C8 witness: the amended statement at a concrete aligned role `(1, 3)`
(start token 1, last covered token 2) and a concrete degenerate role. -/
theorem end_exclusive_alignment_witness :
    (gpRoleLoop c2idW 2 omW "E" [⟨"R", (1, 3)⟩] gpInit).role_ids 0 1 2 = 1 ∧
    (blRoleLoop e2idW 1 omW "E" [⟨"R", (1, 3)⟩] blInit).role_tags 0 1 2 = 1 ∧
    (grRoleLoop omW 1 0 [⟨"R", (1, 3)⟩] [⟨"R", (1, 3)⟩] 0 grInit).role_ids 0 1 2 = 1 ∧
    spRoleLoop c2idW 2 omW "E" (⟨"R", (2, 2)⟩ :: []) spInit = none :=
  end_exclusive_alignment c2idW e2idW 2 1 omW "E" gpInit blInit grInit spInit
    ⟨"R", (1, 3)⟩ ⟨"R", (2, 2)⟩ [] 1 2 0 0
    (by decide) (by decide) (by decide) (by decide) (by decide) (by decide) (by decide)

/-! ## Dense/sparse correspondence

`gplinker_transform` and `sparse_transform` traverse an example identically
and mark the same coordinates — the former by writing `1` into dense tensors,
the latter by inserting into coordinate sets.  `DSEquiv` is the coupling
invariant: the support of each dense tensor is exactly the corresponding
coordinate set (the head/tail tensors only ever write on label axis `0`), and
the warning counts agree. -/

theorem dsequiv_init : DSEquiv gpInit spInit := by
  refine ⟨?_, ?_, ?_, rfl⟩ <;> intro l i j <;> simp [gpInit, spInit, zeros3]

theorem spPair_equiv (om : List (Int × Int)) (h1 t1 : Nat) :
    ∀ (rs : List Role) (d : GpState) (s : SpState), (∀ r ∈ rs, WFRole r) → DSEquiv d s →
      ∃ s', spPairLoop om h1 t1 rs s = some s' ∧ DSEquiv (gpPairLoop om h1 t1 rs d) s'
  | [], _, s, _, hds => ⟨s, rfl, hds⟩
  | r :: rs, d, s, hwf, hds => by
    have hr : r.offset.1 ≤ r.offset.2 - 1 := by
      have := hwf r (by simp)
      unfold WFRole at this
      omega
    have hwf' : ∀ r' ∈ rs, WFRole r' := fun r' h' => hwf r' (by simp [h'])
    cases ha : alignRole om r with
    | some ht2 =>
      obtain ⟨h2, t2⟩ := ht2
      have hds' : DSEquiv
          { d with
            head_ids := setOne d.head_ids 0 (min h1 h2) (max h1 h2)
            tail_ids := setOne d.tail_ids 0 (min t1 t2) (max t1 t2) }
          { s with
            head_tags := insert (min h1 h2, max h1 h2) s.head_tags
            tail_tags := insert (min t1 t2, max t1 t2) s.tail_tags } := by
        obtain ⟨hrole, hhead, htail, hw⟩ := hds
        refine ⟨hrole, ?_, ?_, hw⟩
        · intro l i j
          rw [setOne_eq_one_iff]
          simp only [hhead l i j, Finset.mem_insert, Prod.mk.injEq]
          tauto
        · intro l i j
          rw [setOne_eq_one_iff]
          simp only [htail l i j, Finset.mem_insert, Prod.mk.injEq]
          tauto
      obtain ⟨s', hs', hds''⟩ := spPair_equiv om h1 t1 rs _ _ hwf' hds'
      refine ⟨s', ?_, ?_⟩
      · simp only [spPairLoop, if_pos hr, ha, hs']
      · simp only [gpPairLoop, ha]
        exact hds''
    | none =>
      have hds' : DSEquiv { d with warnings := d.warnings + 1 }
          { s with warnings := s.warnings + 1 } := by
        obtain ⟨hrole, hhead, htail, hw⟩ := hds
        exact ⟨hrole, hhead, htail, by simp [hw]⟩
      obtain ⟨s', hs', hds''⟩ := spPair_equiv om h1 t1 rs _ _ hwf' hds'
      refine ⟨s', ?_, ?_⟩
      · simp only [spPairLoop, if_pos hr, ha, hs']
      · simp only [gpPairLoop, ha]
        exact hds''

theorem spRole_equiv (c2id : String × String → Option Nat) (L : Nat) (om : List (Int × Int))
    (lbl : String) :
    ∀ (rs : List Role) (d : GpState) (s : SpState), (∀ r ∈ rs, WFRole r) → DSEquiv d s →
      ∃ s', spRoleLoop c2id L om lbl rs s = some s' ∧
        DSEquiv (gpRoleLoop c2id L om lbl rs d) s'
  | [], _, s, _, hds => ⟨s, rfl, hds⟩
  | r :: rs, d, s, hwf, hds => by
    have hr : r.offset.1 ≤ r.offset.2 - 1 := by
      have := hwf r (by simp)
      unfold WFRole at this
      omega
    have hwf' : ∀ r' ∈ rs, WFRole r' := fun r' h' => hwf r' (by simp [h'])
    have hwarn : DSEquiv { d with warnings := d.warnings + 1 }
        { s with warnings := s.warnings + 1 } := by
      obtain ⟨hrole, hhead, htail, hw⟩ := hds
      exact ⟨hrole, hhead, htail, by simp [hw]⟩
    cases ha : alignRole om r with
    | some ht1 =>
      obtain ⟨h1, t1⟩ := ht1
      cases hlid : c2id (lbl, r.label) with
      | some lid =>
        by_cases hL : lid < L
        · have hds₁ : DSEquiv { d with role_ids := setOne d.role_ids lid h1 t1 }
              { s with role_tags := fun l =>
                  if l = lid then insert (h1, t1) (s.role_tags l) else s.role_tags l } := by
            obtain ⟨hrole, hhead, htail, hw⟩ := hds
            refine ⟨?_, hhead, htail, hw⟩
            intro l i j
            show setOne d.role_ids lid h1 t1 l i j = 1 ↔
              (i, j) ∈ (if l = lid then insert (h1, t1) (s.role_tags l) else s.role_tags l)
            rw [setOne_eq_one_iff]
            by_cases hl : l = lid
            · rw [if_pos hl]
              simp only [hl, hrole lid i j, Finset.mem_insert, Prod.mk.injEq,
                eq_self_iff_true, true_and]
            · simp only [if_neg hl, hrole l i j]
              tauto
          obtain ⟨s₂, hs₂, hds₂⟩ := spPair_equiv om h1 t1 rs _ _ hwf' hds₁
          obtain ⟨s', hs', hds'⟩ := spRole_equiv c2id L om lbl rs _ _ hwf' hds₂
          refine ⟨s', ?_, ?_⟩
          · simp only [spRoleLoop, if_pos hr, ha, hlid, if_pos hL, Option.bind_eq_bind,
              hs₂, Option.some_bind, hs']
          · simp only [gpRoleLoop, ha, hlid, if_pos hL]
            exact hds'
        · obtain ⟨s', hs', hds'⟩ := spRole_equiv c2id L om lbl rs _ _ hwf' hwarn
          refine ⟨s', ?_, ?_⟩
          · simp only [spRoleLoop, if_pos hr, ha, hlid, if_neg hL, hs']
          · simp only [gpRoleLoop, ha, hlid, if_neg hL]
            exact hds'
      | none =>
        obtain ⟨s', hs', hds'⟩ := spRole_equiv c2id L om lbl rs _ _ hwf' hwarn
        refine ⟨s', ?_, ?_⟩
        · simp only [spRoleLoop, if_pos hr, ha, hlid, hs']
        · simp only [gpRoleLoop, ha, hlid]
          exact hds'
    | none =>
      obtain ⟨s', hs', hds'⟩ := spRole_equiv c2id L om lbl rs _ _ hwf' hwarn
      refine ⟨s', ?_, ?_⟩
      · simp only [spRoleLoop, if_pos hr, ha, hs']
      · simp only [gpRoleLoop, ha]
        exact hds'

theorem wf_trigger_roles {e : Event} (he : WFEvent e) :
    ∀ r ∈ e.roles ++ [triggerRole e], WFRole r := by
  intro r hr
  rcases List.mem_append.mp hr with hr | hr
  · exact he.2 r hr
  · rw [List.mem_singleton.mp hr]
    exact he.1

theorem spEvents_equiv (c2id : String × String → Option Nat) (L : Nat) (om : List (Int × Int)) :
    ∀ (es : List Event) (d : GpState) (s : SpState), (∀ e ∈ es, WFEvent e) → DSEquiv d s →
      ∃ s', spEvents c2id L om es s = some (s', es.map withTriggerRole) ∧
        DSEquiv (gpEvents c2id L om es d).1 s'
  | [], _, s, _, hds => ⟨s, rfl, hds⟩
  | e :: es, d, s, hwf, hds => by
    have he : WFEvent e := hwf e (by simp)
    obtain ⟨s₁, hs₁, hds₁⟩ :=
      spRole_equiv c2id L om e.label (e.roles ++ [triggerRole e]) d s (wf_trigger_roles he) hds
    obtain ⟨s', hs', hds'⟩ :=
      spEvents_equiv c2id L om es _ _ (fun e' h' => hwf e' (by simp [h'])) hds₁
    refine ⟨s', ?_, ?_⟩
    · simp only [spEvents, spEvent, if_pos he.1, hs₁, Option.map_some', Option.bind_eq_bind,
        Option.some_bind, hs', List.map_cons, withTriggerRole]
    · simp only [gpEvents, gpEvent]
      exact hds'

/-- C1: for every well-formed example encoded by both combined-label encoders
(each on its own fresh copy) with the same vocabulary `c2id`/`L` and
tokenizer, the sparse encoder succeeds, and the set of
`(label_id, token_i, token_j)` triples whose entry is `1` in the dense
role/head/tail tensors equals the coordinate sets the sparse encoder
collects; the returned padded sets only add the `(0, 0)` sentinel to labels
with no occurrence. -/
theorem dense_sparse_agree (c2id : String × String → Option Nat) (L : Nat)
    (tok : String → List (Int × Int)) (ex : Example) (hwf : WFExample ex) :
    ∃ s ex', sparse_collect c2id L tok ex = some (s, ex') ∧
      sparse_transform c2id L tok ex =
        some (((List.range L).map fun l => withSentinel (s.role_tags l),
          withSentinel s.head_tags, withSentinel s.tail_tags), ex') ∧
      (∀ l i j, (gplinker_transform c2id L tok ex).1.role_ids l i j = 1 ↔
        (i, j) ∈ s.role_tags l) ∧
      (∀ l i j, (gplinker_transform c2id L tok ex).1.head_ids l i j = 1 ↔
        l = 0 ∧ (i, j) ∈ s.head_tags) ∧
      (∀ l i j, (gplinker_transform c2id L tok ex).1.tail_ids l i j = 1 ↔
        l = 0 ∧ (i, j) ∈ s.tail_tags) := by
  obtain ⟨s', hsp, hds⟩ :=
    spEvents_equiv c2id L (tok ex.text) ex.events gpInit spInit hwf dsequiv_init
  have hcoll : sparse_collect c2id L tok ex =
      some (s', { ex with events := ex.events.map withTriggerRole }) := by
    simp only [sparse_collect, hsp, Option.bind_eq_bind, Option.some_bind]
  refine ⟨s', _, hcoll, ?_, hds.1, hds.2.1, hds.2.2.1⟩
  simp only [sparse_transform, hcoll, Option.map_some']

/-- C1 witness: the agreement at a concrete well-formed example and
vocabulary. -/
theorem dense_sparse_agree_witness :
    ∃ s ex', sparse_collect c2idW 2 tokW exW = some (s, ex') ∧
      sparse_transform c2idW 2 tokW exW =
        some (((List.range 2).map fun l => withSentinel (s.role_tags l),
          withSentinel s.head_tags, withSentinel s.tail_tags), ex') ∧
      (∀ l i j, (gplinker_transform c2idW 2 tokW exW).1.role_ids l i j = 1 ↔
        (i, j) ∈ s.role_tags l) ∧
      (∀ l i j, (gplinker_transform c2idW 2 tokW exW).1.head_ids l i j = 1 ↔
        l = 0 ∧ (i, j) ∈ s.head_tags) ∧
      (∀ l i j, (gplinker_transform c2idW 2 tokW exW).1.tail_ids l i j = 1 ↔
        l = 0 ∧ (i, j) ∈ s.tail_tags) :=
  dense_sparse_agree c2idW 2 tokW exW (by decide)

/-! ## Mutation of the input role lists -/

theorem gpEvents_snd (c2id : String × String → Option Nat) (L : Nat) (om : List (Int × Int)) :
    ∀ (es : List Event) (st : GpState),
      (gpEvents c2id L om es st).2 = es.map withTriggerRole
  | [], _ => rfl
  | e :: es, st => by
    simp only [gpEvents, gpEvent, List.map_cons, withTriggerRole]
    exact congrArg₂ List.cons rfl (gpEvents_snd c2id L om es _)

theorem blEvents_snd (e2id : String → Option Nat) (Lev : Nat) (om : List (Int × Int)) :
    ∀ (es : List Event) (st : BlState),
      (blEvents e2id Lev om es st).2 =
        es.map fun e => { e with roles := e.roles ++ [blTriggerRole e] }
  | [], _ => rfl
  | e :: es, st => by
    simp only [blEvents, blEvent, List.map_cons]
    exact congrArg₂ List.cons rfl (blEvents_snd e2id Lev om es _)

theorem grEvents_some (e2id : String → Option Nat) (Lev : Nat) (om : List (Int × Int)) :
    ∀ (es : List Event) (st : GrState), (∀ e ∈ es, (e2id e.label).isSome) →
      ∃ st', grEvents e2id Lev om es st = some (st', es.map withTriggerRole)
  | [], st, _ => ⟨st, rfl⟩
  | e :: es, st, h => by
    obtain ⟨eid, heid⟩ := Option.isSome_iff_exists.mp (h e (by simp))
    obtain ⟨st', hrec⟩ :=
      grEvents_some e2id Lev om es
        (grRoleLoop om Lev eid (e.roles ++ [triggerRole e]) (e.roles ++ [triggerRole e]) 0 st)
        (fun e' h' => h e' (by simp [h']))
    refine ⟨st', ?_⟩
    simp only [grEvents, grEvent, heid, Option.bind_eq_bind, Option.some_bind, hrec,
      List.map_cons, withTriggerRole]

theorem withTriggerRole_label (e : Event) : (withTriggerRole e).label = e.label := rfl

theorem WFExample_map_withTriggerRole {ex : Example} (hwf : WFExample ex) :
    WFExample { ex with events := ex.events.map withTriggerRole } := by
  intro e' he'
  obtain ⟨e, he, rfl⟩ := List.mem_map.mp he'
  obtain ⟨htr, hroles⟩ := hwf e he
  refine ⟨htr, ?_⟩
  intro r hr
  rcases List.mem_append.mp hr with hr | hr
  · exact hroles r hr
  · rw [List.mem_singleton.mp hr]
    exact htr

/-- C9: every one of the four transforms mutates its input in place,
appending one synthetic trigger role per event; applying a transform twice to
the same examples object leaves each event's role list with the trigger entry
appended twice. -/
theorem transforms_append_trigger_twice (c2id : String × String → Option Nat)
    (e2id : String → Option Nat) (L Lev : Nat) (tok : String → List (Int × Int))
    (ex : Example) (hwf : WFExample ex) (hlab : ∀ e ∈ ex.events, (e2id e.label).isSome) :
    (gplinker_transform c2id L tok (gplinker_transform c2id L tok ex).2).2.events =
      ex.events.map (fun e => { e with roles := e.roles ++ [triggerRole e, triggerRole e] }) ∧
    (blinker_transform e2id Lev tok (blinker_transform e2id Lev tok ex).2).2.events =
      ex.events.map (fun e => { e with roles := e.roles ++ [blTriggerRole e, blTriggerRole e] }) ∧
    (∃ p q, graph_transform e2id Lev tok ex = some p ∧
      graph_transform e2id Lev tok p.2 = some q ∧
      q.2.events =
        ex.events.map (fun e => { e with roles := e.roles ++ [triggerRole e, triggerRole e] })) ∧
    (∃ p q, sparse_collect c2id L tok ex = some p ∧ sparse_collect c2id L tok p.2 = some q ∧
      q.2.events =
        ex.events.map (fun e => { e with roles := e.roles ++ [triggerRole e, triggerRole e] })) := by
  have hmut2 : ∀ es : List Event,
      (es.map withTriggerRole).map withTriggerRole =
        es.map fun e => { e with roles := e.roles ++ [triggerRole e, triggerRole e] } := by
    intro es
    rw [List.map_map]
    refine List.map_congr_left ?_
    intro e _
    simp [withTriggerRole, triggerRole, List.append_assoc]
  refine ⟨?_, ?_, ?_, ?_⟩
  · show (gpEvents c2id L _ (gplinker_transform c2id L tok ex).2.events gpInit).2 = _
    rw [gpEvents_snd]
    show ((gpEvents c2id L _ ex.events gpInit).2).map withTriggerRole = _
    rw [gpEvents_snd]
    exact hmut2 ex.events
  · show (blEvents e2id Lev _ (blinker_transform e2id Lev tok ex).2.events blInit).2 = _
    rw [blEvents_snd]
    show ((blEvents e2id Lev _ ex.events blInit).2).map
      (fun e => { e with roles := e.roles ++ [blTriggerRole e] }) = _
    rw [blEvents_snd]
    rw [List.map_map]
    refine List.map_congr_left ?_
    intro e _
    simp [blTriggerRole, List.append_assoc]
  · obtain ⟨st₁, h₁⟩ := grEvents_some e2id Lev (tok ex.text) ex.events grInit hlab
    have hlab₁ : ∀ e ∈ ex.events.map withTriggerRole, (e2id e.label).isSome := by
      intro e' he'
      obtain ⟨e, he, rfl⟩ := List.mem_map.mp he'
      exact hlab e he
    obtain ⟨st₂, h₂⟩ :=
      grEvents_some e2id Lev (tok ex.text) (ex.events.map withTriggerRole) grInit hlab₁
    refine ⟨(st₁, { ex with events := ex.events.map withTriggerRole }),
      (st₂, { ex with events := (ex.events.map withTriggerRole).map withTriggerRole }),
      ?_, ?_, ?_⟩
    · simp only [graph_transform, h₁, Option.bind_eq_bind, Option.some_bind]
    · simp only [graph_transform, h₂, Option.bind_eq_bind, Option.some_bind]
    · exact hmut2 ex.events
  · obtain ⟨s₁, h₁, _⟩ :=
      spEvents_equiv c2id L (tok ex.text) ex.events gpInit spInit hwf dsequiv_init
    have hwf₁ := WFExample_map_withTriggerRole hwf
    obtain ⟨s₂, h₂, _⟩ :=
      spEvents_equiv c2id L (tok ex.text) (ex.events.map withTriggerRole) gpInit spInit
        hwf₁ dsequiv_init
    refine ⟨(s₁, { ex with events := ex.events.map withTriggerRole }),
      (s₂, { ex with events := (ex.events.map withTriggerRole).map withTriggerRole }),
      ?_, ?_, ?_⟩
    · simp only [sparse_collect, h₁, Option.bind_eq_bind, Option.some_bind]
    · simp only [sparse_collect, h₂, Option.bind_eq_bind, Option.some_bind]
    · exact hmut2 ex.events

/-- C9 witness: the double-append at the concrete example `exW`. -/
theorem transforms_append_trigger_twice_witness :
    (gplinker_transform c2idW 2 tokW (gplinker_transform c2idW 2 tokW exW).2).2.events =
      exW.events.map (fun e => { e with roles := e.roles ++ [triggerRole e, triggerRole e] }) ∧
    (blinker_transform e2idW 1 tokW (blinker_transform e2idW 1 tokW exW).2).2.events =
      exW.events.map (fun e => { e with roles := e.roles ++ [blTriggerRole e, blTriggerRole e] }) ∧
    (∃ p q, graph_transform e2idW 1 tokW exW = some p ∧
      graph_transform e2idW 1 tokW p.2 = some q ∧
      q.2.events =
        exW.events.map (fun e => { e with roles := e.roles ++ [triggerRole e, triggerRole e] })) ∧
    (∃ p q, sparse_collect c2idW 2 tokW exW = some p ∧ sparse_collect c2idW 2 tokW p.2 = some q ∧
      q.2.events =
        exW.events.map (fun e => { e with roles := e.roles ++ [triggerRole e, triggerRole e] })) :=
  transforms_append_trigger_twice c2idW e2idW 2 1 tokW exW (by decide) (by decide)

/-! ## Alignment-failure containment

Skipping a role on alignment failure only loses that role's own marks: the
tag tensors equal those produced for the example with every non-aligning role
removed.  The congruence lemmas say the tag tensors of a loop depend only on
the tag tensors of the incoming state (not its warning count). -/

theorem gpPairLoop_congr (om : List (Int × Int)) (h1 t1 : Nat) :
    ∀ (rs : List Role) (d₁ d₂ : GpState), d₁.role_ids = d₂.role_ids →
      d₁.head_ids = d₂.head_ids → d₁.tail_ids = d₂.tail_ids →
      (gpPairLoop om h1 t1 rs d₁).role_ids = (gpPairLoop om h1 t1 rs d₂).role_ids ∧
      (gpPairLoop om h1 t1 rs d₁).head_ids = (gpPairLoop om h1 t1 rs d₂).head_ids ∧
      (gpPairLoop om h1 t1 rs d₁).tail_ids = (gpPairLoop om h1 t1 rs d₂).tail_ids
  | [], _, _, e₁, e₂, e₃ => ⟨e₁, e₂, e₃⟩
  | r :: rs, d₁, d₂, e₁, e₂, e₃ => by
    cases ha : alignRole om r with
    | some ht =>
      obtain ⟨h2, t2⟩ := ht
      simp only [gpPairLoop, ha]
      exact gpPairLoop_congr om h1 t1 rs _ _ e₁ (by rw [e₂]) (by rw [e₃])
    | none =>
      simp only [gpPairLoop, ha]
      exact gpPairLoop_congr om h1 t1 rs _ _ e₁ e₂ e₃

theorem gpPairLoop_filter (om : List (Int × Int)) (h1 t1 : Nat) :
    ∀ (rs : List Role) (d : GpState),
      (gpPairLoop om h1 t1 rs d).role_ids =
        (gpPairLoop om h1 t1 (rs.filter (alignedB om)) d).role_ids ∧
      (gpPairLoop om h1 t1 rs d).head_ids =
        (gpPairLoop om h1 t1 (rs.filter (alignedB om)) d).head_ids ∧
      (gpPairLoop om h1 t1 rs d).tail_ids =
        (gpPairLoop om h1 t1 (rs.filter (alignedB om)) d).tail_ids
  | [], _ => ⟨rfl, rfl, rfl⟩
  | r :: rs, d => by
    cases ha : alignRole om r with
    | some ht =>
      obtain ⟨h2, t2⟩ := ht
      have hb : alignedB om r = true := by simp [alignedB, ha]
      rw [List.filter_cons_of_pos hb]
      simp only [gpPairLoop, ha]
      exact gpPairLoop_filter om h1 t1 rs _
    | none =>
      have hb : ¬ alignedB om r = true := by simp [alignedB, ha]
      rw [List.filter_cons_of_neg hb]
      simp only [gpPairLoop, ha]
      have hc := gpPairLoop_congr om h1 t1 rs { d with warnings := d.warnings + 1 } d rfl rfl rfl
      have hf := gpPairLoop_filter om h1 t1 rs d
      exact ⟨hc.1.trans hf.1, hc.2.1.trans hf.2.1, hc.2.2.trans hf.2.2⟩

theorem gpRoleLoop_congr (c2id : String × String → Option Nat) (L : Nat)
    (om : List (Int × Int)) (lbl : String) :
    ∀ (rs : List Role) (d₁ d₂ : GpState), d₁.role_ids = d₂.role_ids →
      d₁.head_ids = d₂.head_ids → d₁.tail_ids = d₂.tail_ids →
      (gpRoleLoop c2id L om lbl rs d₁).role_ids = (gpRoleLoop c2id L om lbl rs d₂).role_ids ∧
      (gpRoleLoop c2id L om lbl rs d₁).head_ids = (gpRoleLoop c2id L om lbl rs d₂).head_ids ∧
      (gpRoleLoop c2id L om lbl rs d₁).tail_ids = (gpRoleLoop c2id L om lbl rs d₂).tail_ids
  | [], _, _, e₁, e₂, e₃ => ⟨e₁, e₂, e₃⟩
  | r :: rs, d₁, d₂, e₁, e₂, e₃ => by
    cases ha : alignRole om r with
    | some ht =>
      obtain ⟨h1, t1⟩ := ht
      cases hlid : c2id (lbl, r.label) with
      | some lid =>
        by_cases hL : lid < L
        · simp only [gpRoleLoop, ha, hlid, if_pos hL]
          have hp := gpPairLoop_congr om h1 t1 rs
            { d₁ with role_ids := setOne d₁.role_ids lid h1 t1 }
            { d₂ with role_ids := setOne d₂.role_ids lid h1 t1 }
            (by rw [e₁]) e₂ e₃
          exact gpRoleLoop_congr c2id L om lbl rs _ _ hp.1 hp.2.1 hp.2.2
        · simp only [gpRoleLoop, ha, hlid, if_neg hL]
          exact gpRoleLoop_congr c2id L om lbl rs _ _ e₁ e₂ e₃
      | none =>
        simp only [gpRoleLoop, ha, hlid]
        exact gpRoleLoop_congr c2id L om lbl rs _ _ e₁ e₂ e₃
    | none =>
      simp only [gpRoleLoop, ha]
      exact gpRoleLoop_congr c2id L om lbl rs _ _ e₁ e₂ e₃

theorem gpRoleLoop_filter (c2id : String × String → Option Nat) (L : Nat)
    (om : List (Int × Int)) (lbl : String) :
    ∀ (rs : List Role) (d : GpState),
      (gpRoleLoop c2id L om lbl rs d).role_ids =
        (gpRoleLoop c2id L om lbl (rs.filter (alignedB om)) d).role_ids ∧
      (gpRoleLoop c2id L om lbl rs d).head_ids =
        (gpRoleLoop c2id L om lbl (rs.filter (alignedB om)) d).head_ids ∧
      (gpRoleLoop c2id L om lbl rs d).tail_ids =
        (gpRoleLoop c2id L om lbl (rs.filter (alignedB om)) d).tail_ids
  | [], _ => ⟨rfl, rfl, rfl⟩
  | r :: rs, d => by
    cases ha : alignRole om r with
    | some ht =>
      obtain ⟨h1, t1⟩ := ht
      have hb : alignedB om r = true := by simp [alignedB, ha]
      rw [List.filter_cons_of_pos hb]
      cases hlid : c2id (lbl, r.label) with
      | some lid =>
        by_cases hL : lid < L
        · simp only [gpRoleLoop, ha, hlid, if_pos hL]
          have hXY := gpPairLoop_filter om h1 t1 rs
            { d with role_ids := setOne d.role_ids lid h1 t1 }
          have hcong := gpRoleLoop_congr c2id L om lbl rs _ _ hXY.1 hXY.2.1 hXY.2.2
          have hfil := gpRoleLoop_filter c2id L om lbl rs
            (gpPairLoop om h1 t1 (rs.filter (alignedB om))
              { d with role_ids := setOne d.role_ids lid h1 t1 })
          exact ⟨hcong.1.trans hfil.1, hcong.2.1.trans hfil.2.1, hcong.2.2.trans hfil.2.2⟩
        · simp only [gpRoleLoop, ha, hlid, if_neg hL]
          exact gpRoleLoop_filter c2id L om lbl rs _
      | none =>
        simp only [gpRoleLoop, ha, hlid]
        exact gpRoleLoop_filter c2id L om lbl rs _
    | none =>
      have hb : ¬ alignedB om r = true := by simp [alignedB, ha]
      rw [List.filter_cons_of_neg hb]
      simp only [gpRoleLoop, ha]
      have hc := gpRoleLoop_congr c2id L om lbl rs { d with warnings := d.warnings + 1 } d
        rfl rfl rfl
      have hf := gpRoleLoop_filter c2id L om lbl rs d
      exact ⟨hc.1.trans hf.1, hc.2.1.trans hf.2.1, hc.2.2.trans hf.2.2⟩

theorem filter_alignedB_idem (om : List (Int × Int)) (l : List Role) :
    (l.filter (alignedB om)).filter (alignedB om) = l.filter (alignedB om) := by
  simp [List.filter_filter]

theorem triggerRole_filter (om : List (Int × Int)) (e : Event) :
    triggerRole { e with roles := e.roles.filter (alignedB om) } = triggerRole e := rfl

theorem gpEvents_congr (c2id : String × String → Option Nat) (L : Nat)
    (om : List (Int × Int)) :
    ∀ (es : List Event) (d₁ d₂ : GpState), d₁.role_ids = d₂.role_ids →
      d₁.head_ids = d₂.head_ids → d₁.tail_ids = d₂.tail_ids →
      (gpEvents c2id L om es d₁).1.role_ids = (gpEvents c2id L om es d₂).1.role_ids ∧
      (gpEvents c2id L om es d₁).1.head_ids = (gpEvents c2id L om es d₂).1.head_ids ∧
      (gpEvents c2id L om es d₁).1.tail_ids = (gpEvents c2id L om es d₂).1.tail_ids
  | [], _, _, e₁, e₂, e₃ => ⟨e₁, e₂, e₃⟩
  | e :: es, d₁, d₂, e₁, e₂, e₃ => by
    simp only [gpEvents, gpEvent]
    have hr := gpRoleLoop_congr c2id L om e.label (e.roles ++ [triggerRole e]) d₁ d₂ e₁ e₂ e₃
    exact gpEvents_congr c2id L om es _ _ hr.1 hr.2.1 hr.2.2

theorem gpEvents_filter (c2id : String × String → Option Nat) (L : Nat)
    (om : List (Int × Int)) :
    ∀ (es : List Event) (d : GpState),
      (gpEvents c2id L om es d).1.role_ids =
        (gpEvents c2id L om
          (es.map fun e => { e with roles := e.roles.filter (alignedB om) }) d).1.role_ids ∧
      (gpEvents c2id L om es d).1.head_ids =
        (gpEvents c2id L om
          (es.map fun e => { e with roles := e.roles.filter (alignedB om) }) d).1.head_ids ∧
      (gpEvents c2id L om es d).1.tail_ids =
        (gpEvents c2id L om
          (es.map fun e => { e with roles := e.roles.filter (alignedB om) }) d).1.tail_ids
  | [], _ => ⟨rfl, rfl, rfl⟩
  | e :: es, d => by
    simp only [List.map_cons, gpEvents, gpEvent, triggerRole_filter]
    have h1 := gpRoleLoop_filter c2id L om e.label (e.roles ++ [triggerRole e]) d
    have hlist : (e.roles ++ [triggerRole e]).filter (alignedB om) =
        ((e.roles.filter (alignedB om)) ++ [triggerRole e]).filter (alignedB om) := by
      rw [List.filter_append, List.filter_append, filter_alignedB_idem]
    have h2 := gpRoleLoop_filter c2id L om e.label
      ((e.roles.filter (alignedB om)) ++ [triggerRole e]) d
    rw [hlist] at h1
    have hXY₁ : (gpRoleLoop c2id L om e.label (e.roles ++ [triggerRole e]) d).role_ids =
        (gpRoleLoop c2id L om e.label
          ((e.roles.filter (alignedB om)) ++ [triggerRole e]) d).role_ids :=
      h1.1.trans h2.1.symm
    have hXY₂ : (gpRoleLoop c2id L om e.label (e.roles ++ [triggerRole e]) d).head_ids =
        (gpRoleLoop c2id L om e.label
          ((e.roles.filter (alignedB om)) ++ [triggerRole e]) d).head_ids :=
      h1.2.1.trans h2.2.1.symm
    have hXY₃ : (gpRoleLoop c2id L om e.label (e.roles ++ [triggerRole e]) d).tail_ids =
        (gpRoleLoop c2id L om e.label
          ((e.roles.filter (alignedB om)) ++ [triggerRole e]) d).tail_ids :=
      h1.2.2.trans h2.2.2.symm
    have hcong := gpEvents_congr c2id L om es _ _ hXY₁ hXY₂ hXY₃
    have hrec := gpEvents_filter c2id L om es
      (gpRoleLoop c2id L om e.label ((e.roles.filter (alignedB om)) ++ [triggerRole e]) d)
    exact ⟨hcong.1.trans hrec.1, hcong.2.1.trans hrec.2.1, hcong.2.2.trans hrec.2.2⟩

theorem gpPairLoop_warnings_le (om : List (Int × Int)) (h1 t1 : Nat) :
    ∀ (rs : List Role) (d : GpState), d.warnings ≤ (gpPairLoop om h1 t1 rs d).warnings
  | [], _ => le_refl _
  | r :: rs, d => by
    cases ha : alignRole om r with
    | some ht =>
      obtain ⟨h2, t2⟩ := ht
      simp only [gpPairLoop, ha]
      exact gpPairLoop_warnings_le om h1 t1 rs
        { d with
          head_ids := setOne d.head_ids 0 (min h1 h2) (max h1 h2)
          tail_ids := setOne d.tail_ids 0 (min t1 t2) (max t1 t2) }
    | none =>
      simp only [gpPairLoop, ha]
      exact le_trans (Nat.le_succ _)
        (gpPairLoop_warnings_le om h1 t1 rs { d with warnings := d.warnings + 1 })

theorem gpRoleLoop_warnings_le (c2id : String × String → Option Nat) (L : Nat)
    (om : List (Int × Int)) (lbl : String) :
    ∀ (rs : List Role) (d : GpState), d.warnings ≤ (gpRoleLoop c2id L om lbl rs d).warnings
  | [], _ => le_refl _
  | r :: rs, d => by
    cases ha : alignRole om r with
    | some ht =>
      obtain ⟨h1, t1⟩ := ht
      cases hlid : c2id (lbl, r.label) with
      | some lid =>
        by_cases hL : lid < L
        · simp only [gpRoleLoop, ha, hlid, if_pos hL]
          exact le_trans
            (gpPairLoop_warnings_le om h1 t1 rs
              { d with role_ids := setOne d.role_ids lid h1 t1 })
            (gpRoleLoop_warnings_le c2id L om lbl rs
              (gpPairLoop om h1 t1 rs { d with role_ids := setOne d.role_ids lid h1 t1 }))
        · simp only [gpRoleLoop, ha, hlid, if_neg hL]
          exact le_trans (Nat.le_succ _)
            (gpRoleLoop_warnings_le c2id L om lbl rs { d with warnings := d.warnings + 1 })
      | none =>
        simp only [gpRoleLoop, ha, hlid]
        exact le_trans (Nat.le_succ _)
          (gpRoleLoop_warnings_le c2id L om lbl rs { d with warnings := d.warnings + 1 })
    | none =>
      simp only [gpRoleLoop, ha]
      exact le_trans (Nat.le_succ _)
        (gpRoleLoop_warnings_le c2id L om lbl rs { d with warnings := d.warnings + 1 })

theorem gpRoleLoop_warnings_strict (c2id : String × String → Option Nat) (L : Nat)
    (om : List (Int × Int)) (lbl : String) :
    ∀ (rs : List Role) (d : GpState) (r : Role), r ∈ rs → alignRole om r = none →
      d.warnings < (gpRoleLoop c2id L om lbl rs d).warnings
  | r' :: rs, d, r, hmem, hnone => by
    rcases List.mem_cons.mp hmem with rfl | hmem
    · simp only [gpRoleLoop, hnone]
      exact lt_of_lt_of_le (Nat.lt_succ_self _)
        (gpRoleLoop_warnings_le c2id L om lbl rs { d with warnings := d.warnings + 1 })
    · cases ha : alignRole om r' with
      | some ht =>
        obtain ⟨h1, t1⟩ := ht
        cases hlid : c2id (lbl, r'.label) with
        | some lid =>
          by_cases hL : lid < L
          · simp only [gpRoleLoop, ha, hlid, if_pos hL]
            exact lt_of_le_of_lt
              (gpPairLoop_warnings_le om h1 t1 rs
                { d with role_ids := setOne d.role_ids lid h1 t1 })
              (gpRoleLoop_warnings_strict c2id L om lbl rs
                (gpPairLoop om h1 t1 rs { d with role_ids := setOne d.role_ids lid h1 t1 })
                r hmem hnone)
          · simp only [gpRoleLoop, ha, hlid, if_neg hL]
            exact lt_of_le_of_lt (Nat.le_succ _)
              (gpRoleLoop_warnings_strict c2id L om lbl rs
                { d with warnings := d.warnings + 1 } r hmem hnone)
        | none =>
          simp only [gpRoleLoop, ha, hlid]
          exact lt_of_le_of_lt (Nat.le_succ _)
            (gpRoleLoop_warnings_strict c2id L om lbl rs
              { d with warnings := d.warnings + 1 } r hmem hnone)
      | none =>
        simp only [gpRoleLoop, ha]
        exact lt_of_le_of_lt (Nat.le_succ _)
          (gpRoleLoop_warnings_strict c2id L om lbl rs
            { d with warnings := d.warnings + 1 } r hmem hnone)

theorem gpEvents_warnings_le (c2id : String × String → Option Nat) (L : Nat)
    (om : List (Int × Int)) :
    ∀ (es : List Event) (d : GpState), d.warnings ≤ (gpEvents c2id L om es d).1.warnings
  | [], _ => le_refl _
  | e :: es, d => by
    simp only [gpEvents, gpEvent]
    exact le_trans (gpRoleLoop_warnings_le c2id L om e.label (e.roles ++ [triggerRole e]) d)
      (gpEvents_warnings_le c2id L om es
        (gpRoleLoop c2id L om e.label (e.roles ++ [triggerRole e]) d))

theorem gpEvents_warnings_strict (c2id : String × String → Option Nat) (L : Nat)
    (om : List (Int × Int)) :
    ∀ (es : List Event) (d : GpState) (e : Event), e ∈ es →
      (∃ r ∈ e.roles ++ [triggerRole e], alignRole om r = none) →
      d.warnings < (gpEvents c2id L om es d).1.warnings
  | e' :: es, d, e, hmem, ⟨r, hr, hnone⟩ => by
    rcases List.mem_cons.mp hmem with rfl | hmem
    · simp only [gpEvents, gpEvent]
      exact lt_of_lt_of_le
        (gpRoleLoop_warnings_strict c2id L om e.label (e.roles ++ [triggerRole e]) d r hr hnone)
        (gpEvents_warnings_le c2id L om es
          (gpRoleLoop c2id L om e.label (e.roles ++ [triggerRole e]) d))
    · simp only [gpEvents, gpEvent]
      exact lt_of_le_of_lt
        (gpRoleLoop_warnings_le c2id L om e'.label (e'.roles ++ [triggerRole e']) d)
        (gpEvents_warnings_strict c2id L om es
          (gpRoleLoop c2id L om e'.label (e'.roles ++ [triggerRole e']) d) e hmem
          ⟨r, hr, hnone⟩)

/-! Blinker: the same congruence and filter lemmas as for the gplinker
encoder, on the event-type label axis. -/

theorem blPairLoop_congr (om : List (Int × Int)) (eid h1 t1 : Nat) :
    ∀ (rs : List Role) (d₁ d₂ : BlState), d₁.role_tags = d₂.role_tags →
      d₁.head_tags = d₂.head_tags → d₁.tail_tags = d₂.tail_tags →
      (blPairLoop om eid h1 t1 rs d₁).role_tags = (blPairLoop om eid h1 t1 rs d₂).role_tags ∧
      (blPairLoop om eid h1 t1 rs d₁).head_tags = (blPairLoop om eid h1 t1 rs d₂).head_tags ∧
      (blPairLoop om eid h1 t1 rs d₁).tail_tags = (blPairLoop om eid h1 t1 rs d₂).tail_tags
  | [], _, _, e₁, e₂, e₃ => ⟨e₁, e₂, e₃⟩
  | r :: rs, d₁, d₂, e₁, e₂, e₃ => by
    cases ha : alignRole om r with
    | some ht =>
      obtain ⟨h2, t2⟩ := ht
      simp only [blPairLoop, ha]
      exact blPairLoop_congr om eid h1 t1 rs _ _ e₁ (by rw [e₂]) (by rw [e₃])
    | none =>
      simp only [blPairLoop, ha]
      exact blPairLoop_congr om eid h1 t1 rs _ _ e₁ e₂ e₃

theorem blPairLoop_filter (om : List (Int × Int)) (eid h1 t1 : Nat) :
    ∀ (rs : List Role) (d : BlState),
      (blPairLoop om eid h1 t1 rs d).role_tags =
        (blPairLoop om eid h1 t1 (rs.filter (alignedB om)) d).role_tags ∧
      (blPairLoop om eid h1 t1 rs d).head_tags =
        (blPairLoop om eid h1 t1 (rs.filter (alignedB om)) d).head_tags ∧
      (blPairLoop om eid h1 t1 rs d).tail_tags =
        (blPairLoop om eid h1 t1 (rs.filter (alignedB om)) d).tail_tags
  | [], _ => ⟨rfl, rfl, rfl⟩
  | r :: rs, d => by
    cases ha : alignRole om r with
    | some ht =>
      obtain ⟨h2, t2⟩ := ht
      have hb : alignedB om r = true := by simp [alignedB, ha]
      rw [List.filter_cons_of_pos hb]
      simp only [blPairLoop, ha]
      exact blPairLoop_filter om eid h1 t1 rs _
    | none =>
      have hb : ¬ alignedB om r = true := by simp [alignedB, ha]
      rw [List.filter_cons_of_neg hb]
      simp only [blPairLoop, ha]
      have hc := blPairLoop_congr om eid h1 t1 rs { d with warnings := d.warnings + 1 } d
        rfl rfl rfl
      have hf := blPairLoop_filter om eid h1 t1 rs d
      exact ⟨hc.1.trans hf.1, hc.2.1.trans hf.2.1, hc.2.2.trans hf.2.2⟩

theorem blRoleLoop_congr (e2id : String → Option Nat) (Lev : Nat)
    (om : List (Int × Int)) (lbl : String) :
    ∀ (rs : List Role) (d₁ d₂ : BlState), d₁.role_tags = d₂.role_tags →
      d₁.head_tags = d₂.head_tags → d₁.tail_tags = d₂.tail_tags →
      (blRoleLoop e2id Lev om lbl rs d₁).role_tags =
        (blRoleLoop e2id Lev om lbl rs d₂).role_tags ∧
      (blRoleLoop e2id Lev om lbl rs d₁).head_tags =
        (blRoleLoop e2id Lev om lbl rs d₂).head_tags ∧
      (blRoleLoop e2id Lev om lbl rs d₁).tail_tags =
        (blRoleLoop e2id Lev om lbl rs d₂).tail_tags
  | [], _, _, e₁, e₂, e₃ => ⟨e₁, e₂, e₃⟩
  | r :: rs, d₁, d₂, e₁, e₂, e₃ => by
    cases ha : alignRole om r with
    | some ht =>
      obtain ⟨h1, t1⟩ := ht
      cases heid : e2id lbl with
      | some eid =>
        by_cases hL : eid < Lev
        · simp only [blRoleLoop, ha, heid, if_pos hL]
          have hp := blPairLoop_congr om eid h1 t1 rs
            { d₁ with role_tags := setOne d₁.role_tags eid h1 t1 }
            { d₂ with role_tags := setOne d₂.role_tags eid h1 t1 }
            (by rw [e₁]) e₂ e₃
          exact blRoleLoop_congr e2id Lev om lbl rs _ _ hp.1 hp.2.1 hp.2.2
        · simp only [blRoleLoop, ha, heid, if_neg hL]
          exact blRoleLoop_congr e2id Lev om lbl rs _ _ e₁ e₂ e₃
      | none =>
        simp only [blRoleLoop, ha, heid]
        exact blRoleLoop_congr e2id Lev om lbl rs _ _ e₁ e₂ e₃
    | none =>
      simp only [blRoleLoop, ha]
      exact blRoleLoop_congr e2id Lev om lbl rs _ _ e₁ e₂ e₃

theorem blRoleLoop_filter (e2id : String → Option Nat) (Lev : Nat)
    (om : List (Int × Int)) (lbl : String) :
    ∀ (rs : List Role) (d : BlState),
      (blRoleLoop e2id Lev om lbl rs d).role_tags =
        (blRoleLoop e2id Lev om lbl (rs.filter (alignedB om)) d).role_tags ∧
      (blRoleLoop e2id Lev om lbl rs d).head_tags =
        (blRoleLoop e2id Lev om lbl (rs.filter (alignedB om)) d).head_tags ∧
      (blRoleLoop e2id Lev om lbl rs d).tail_tags =
        (blRoleLoop e2id Lev om lbl (rs.filter (alignedB om)) d).tail_tags
  | [], _ => ⟨rfl, rfl, rfl⟩
  | r :: rs, d => by
    cases ha : alignRole om r with
    | some ht =>
      obtain ⟨h1, t1⟩ := ht
      have hb : alignedB om r = true := by simp [alignedB, ha]
      rw [List.filter_cons_of_pos hb]
      cases heid : e2id lbl with
      | some eid =>
        by_cases hL : eid < Lev
        · simp only [blRoleLoop, ha, heid, if_pos hL]
          have hXY := blPairLoop_filter om eid h1 t1 rs
            { d with role_tags := setOne d.role_tags eid h1 t1 }
          have hcong := blRoleLoop_congr e2id Lev om lbl rs _ _ hXY.1 hXY.2.1 hXY.2.2
          have hfil := blRoleLoop_filter e2id Lev om lbl rs
            (blPairLoop om eid h1 t1 (rs.filter (alignedB om))
              { d with role_tags := setOne d.role_tags eid h1 t1 })
          exact ⟨hcong.1.trans hfil.1, hcong.2.1.trans hfil.2.1, hcong.2.2.trans hfil.2.2⟩
        · simp only [blRoleLoop, ha, heid, if_neg hL]
          exact blRoleLoop_filter e2id Lev om lbl rs _
      | none =>
        simp only [blRoleLoop, ha, heid]
        exact blRoleLoop_filter e2id Lev om lbl rs _
    | none =>
      have hb : ¬ alignedB om r = true := by simp [alignedB, ha]
      rw [List.filter_cons_of_neg hb]
      simp only [blRoleLoop, ha]
      have hc := blRoleLoop_congr e2id Lev om lbl rs { d with warnings := d.warnings + 1 } d
        rfl rfl rfl
      have hf := blRoleLoop_filter e2id Lev om lbl rs d
      exact ⟨hc.1.trans hf.1, hc.2.1.trans hf.2.1, hc.2.2.trans hf.2.2⟩

theorem blTriggerRole_filter (om : List (Int × Int)) (e : Event) :
    blTriggerRole { e with roles := e.roles.filter (alignedB om) } = blTriggerRole e := rfl

theorem blEvents_congr (e2id : String → Option Nat) (Lev : Nat) (om : List (Int × Int)) :
    ∀ (es : List Event) (d₁ d₂ : BlState), d₁.role_tags = d₂.role_tags →
      d₁.head_tags = d₂.head_tags → d₁.tail_tags = d₂.tail_tags →
      (blEvents e2id Lev om es d₁).1.role_tags = (blEvents e2id Lev om es d₂).1.role_tags ∧
      (blEvents e2id Lev om es d₁).1.head_tags = (blEvents e2id Lev om es d₂).1.head_tags ∧
      (blEvents e2id Lev om es d₁).1.tail_tags = (blEvents e2id Lev om es d₂).1.tail_tags
  | [], _, _, e₁, e₂, e₃ => ⟨e₁, e₂, e₃⟩
  | e :: es, d₁, d₂, e₁, e₂, e₃ => by
    simp only [blEvents, blEvent]
    have hr := blRoleLoop_congr e2id Lev om e.label (e.roles ++ [blTriggerRole e]) d₁ d₂ e₁ e₂ e₃
    exact blEvents_congr e2id Lev om es _ _ hr.1 hr.2.1 hr.2.2

theorem blEvents_filter (e2id : String → Option Nat) (Lev : Nat) (om : List (Int × Int)) :
    ∀ (es : List Event) (d : BlState),
      (blEvents e2id Lev om es d).1.role_tags =
        (blEvents e2id Lev om
          (es.map fun e => { e with roles := e.roles.filter (alignedB om) }) d).1.role_tags ∧
      (blEvents e2id Lev om es d).1.head_tags =
        (blEvents e2id Lev om
          (es.map fun e => { e with roles := e.roles.filter (alignedB om) }) d).1.head_tags ∧
      (blEvents e2id Lev om es d).1.tail_tags =
        (blEvents e2id Lev om
          (es.map fun e => { e with roles := e.roles.filter (alignedB om) }) d).1.tail_tags
  | [], _ => ⟨rfl, rfl, rfl⟩
  | e :: es, d => by
    simp only [List.map_cons, blEvents, blEvent, blTriggerRole_filter]
    have h1 := blRoleLoop_filter e2id Lev om e.label (e.roles ++ [blTriggerRole e]) d
    have hlist : (e.roles ++ [blTriggerRole e]).filter (alignedB om) =
        ((e.roles.filter (alignedB om)) ++ [blTriggerRole e]).filter (alignedB om) := by
      rw [List.filter_append, List.filter_append, filter_alignedB_idem]
    have h2 := blRoleLoop_filter e2id Lev om e.label
      ((e.roles.filter (alignedB om)) ++ [blTriggerRole e]) d
    rw [hlist] at h1
    have hXY₁ : (blRoleLoop e2id Lev om e.label (e.roles ++ [blTriggerRole e]) d).role_tags =
        (blRoleLoop e2id Lev om e.label
          ((e.roles.filter (alignedB om)) ++ [blTriggerRole e]) d).role_tags :=
      h1.1.trans h2.1.symm
    have hXY₂ : (blRoleLoop e2id Lev om e.label (e.roles ++ [blTriggerRole e]) d).head_tags =
        (blRoleLoop e2id Lev om e.label
          ((e.roles.filter (alignedB om)) ++ [blTriggerRole e]) d).head_tags :=
      h1.2.1.trans h2.2.1.symm
    have hXY₃ : (blRoleLoop e2id Lev om e.label (e.roles ++ [blTriggerRole e]) d).tail_tags =
        (blRoleLoop e2id Lev om e.label
          ((e.roles.filter (alignedB om)) ++ [blTriggerRole e]) d).tail_tags :=
      h1.2.2.trans h2.2.2.symm
    have hcong := blEvents_congr e2id Lev om es _ _ hXY₁ hXY₂ hXY₃
    have hrec := blEvents_filter e2id Lev om es
      (blRoleLoop e2id Lev om e.label ((e.roles.filter (alignedB om)) ++ [blTriggerRole e]) d)
    exact ⟨hcong.1.trans hrec.1, hcong.2.1.trans hrec.2.1, hcong.2.2.trans hrec.2.2⟩

theorem blPairLoop_warnings_le (om : List (Int × Int)) (eid h1 t1 : Nat) :
    ∀ (rs : List Role) (d : BlState), d.warnings ≤ (blPairLoop om eid h1 t1 rs d).warnings
  | [], _ => le_refl _
  | r :: rs, d => by
    cases ha : alignRole om r with
    | some ht =>
      obtain ⟨h2, t2⟩ := ht
      simp only [blPairLoop, ha]
      exact blPairLoop_warnings_le om eid h1 t1 rs
        { d with
          head_tags := setOne d.head_tags eid (min h1 h2) (max h1 h2)
          tail_tags := setOne d.tail_tags eid (min t1 t2) (max t1 t2) }
    | none =>
      simp only [blPairLoop, ha]
      exact le_trans (Nat.le_succ _)
        (blPairLoop_warnings_le om eid h1 t1 rs { d with warnings := d.warnings + 1 })

theorem blRoleLoop_warnings_le (e2id : String → Option Nat) (Lev : Nat)
    (om : List (Int × Int)) (lbl : String) :
    ∀ (rs : List Role) (d : BlState), d.warnings ≤ (blRoleLoop e2id Lev om lbl rs d).warnings
  | [], _ => le_refl _
  | r :: rs, d => by
    cases ha : alignRole om r with
    | some ht =>
      obtain ⟨h1, t1⟩ := ht
      cases heid : e2id lbl with
      | some eid =>
        by_cases hL : eid < Lev
        · simp only [blRoleLoop, ha, heid, if_pos hL]
          exact le_trans
            (blPairLoop_warnings_le om eid h1 t1 rs
              { d with role_tags := setOne d.role_tags eid h1 t1 })
            (blRoleLoop_warnings_le e2id Lev om lbl rs
              (blPairLoop om eid h1 t1 rs { d with role_tags := setOne d.role_tags eid h1 t1 }))
        · simp only [blRoleLoop, ha, heid, if_neg hL]
          exact le_trans (Nat.le_succ _)
            (blRoleLoop_warnings_le e2id Lev om lbl rs { d with warnings := d.warnings + 1 })
      | none =>
        simp only [blRoleLoop, ha, heid]
        exact le_trans (Nat.le_succ _)
          (blRoleLoop_warnings_le e2id Lev om lbl rs { d with warnings := d.warnings + 1 })
    | none =>
      simp only [blRoleLoop, ha]
      exact le_trans (Nat.le_succ _)
        (blRoleLoop_warnings_le e2id Lev om lbl rs { d with warnings := d.warnings + 1 })

theorem blRoleLoop_warnings_strict (e2id : String → Option Nat) (Lev : Nat)
    (om : List (Int × Int)) (lbl : String) :
    ∀ (rs : List Role) (d : BlState) (r : Role), r ∈ rs → alignRole om r = none →
      d.warnings < (blRoleLoop e2id Lev om lbl rs d).warnings
  | r' :: rs, d, r, hmem, hnone => by
    rcases List.mem_cons.mp hmem with rfl | hmem
    · simp only [blRoleLoop, hnone]
      exact lt_of_lt_of_le (Nat.lt_succ_self _)
        (blRoleLoop_warnings_le e2id Lev om lbl rs { d with warnings := d.warnings + 1 })
    · cases ha : alignRole om r' with
      | some ht =>
        obtain ⟨h1, t1⟩ := ht
        cases heid : e2id lbl with
        | some eid =>
          by_cases hL : eid < Lev
          · simp only [blRoleLoop, ha, heid, if_pos hL]
            exact lt_of_le_of_lt
              (blPairLoop_warnings_le om eid h1 t1 rs
                { d with role_tags := setOne d.role_tags eid h1 t1 })
              (blRoleLoop_warnings_strict e2id Lev om lbl rs
                (blPairLoop om eid h1 t1 rs { d with role_tags := setOne d.role_tags eid h1 t1 })
                r hmem hnone)
          · simp only [blRoleLoop, ha, heid, if_neg hL]
            exact lt_of_le_of_lt (Nat.le_succ _)
              (blRoleLoop_warnings_strict e2id Lev om lbl rs
                { d with warnings := d.warnings + 1 } r hmem hnone)
        | none =>
          simp only [blRoleLoop, ha, heid]
          exact lt_of_le_of_lt (Nat.le_succ _)
            (blRoleLoop_warnings_strict e2id Lev om lbl rs
              { d with warnings := d.warnings + 1 } r hmem hnone)
      | none =>
        simp only [blRoleLoop, ha]
        exact lt_of_le_of_lt (Nat.le_succ _)
          (blRoleLoop_warnings_strict e2id Lev om lbl rs
            { d with warnings := d.warnings + 1 } r hmem hnone)

theorem blEvents_warnings_le (e2id : String → Option Nat) (Lev : Nat)
    (om : List (Int × Int)) :
    ∀ (es : List Event) (d : BlState), d.warnings ≤ (blEvents e2id Lev om es d).1.warnings
  | [], _ => le_refl _
  | e :: es, d => by
    simp only [blEvents, blEvent]
    exact le_trans
      (blRoleLoop_warnings_le e2id Lev om e.label (e.roles ++ [blTriggerRole e]) d)
      (blEvents_warnings_le e2id Lev om es
        (blRoleLoop e2id Lev om e.label (e.roles ++ [blTriggerRole e]) d))

theorem blEvents_warnings_strict (e2id : String → Option Nat) (Lev : Nat)
    (om : List (Int × Int)) :
    ∀ (es : List Event) (d : BlState) (e : Event), e ∈ es →
      (∃ r ∈ e.roles ++ [blTriggerRole e], alignRole om r = none) →
      d.warnings < (blEvents e2id Lev om es d).1.warnings
  | e' :: es, d, e, hmem, ⟨r, hr, hnone⟩ => by
    rcases List.mem_cons.mp hmem with rfl | hmem
    · simp only [blEvents, blEvent]
      exact lt_of_lt_of_le
        (blRoleLoop_warnings_strict e2id Lev om e.label (e.roles ++ [blTriggerRole e]) d
          r hr hnone)
        (blEvents_warnings_le e2id Lev om es
          (blRoleLoop e2id Lev om e.label (e.roles ++ [blTriggerRole e]) d))
    · simp only [blEvents, blEvent]
      exact lt_of_le_of_lt
        (blRoleLoop_warnings_le e2id Lev om e'.label (e'.roles ++ [blTriggerRole e']) d)
        (blEvents_warnings_strict e2id Lev om es
          (blRoleLoop e2id Lev om e'.label (e'.roles ++ [blTriggerRole e']) d) e hmem
          ⟨r, hr, hnone⟩)

/-! Graph: the pair loop skips one position (`j = i`, the current `role1`),
so the filter lemmas track positions: past the skip index both loops process
the remaining aligned roles in order; through the skip the list is split as
`pre ++ role1 :: post` with the skip index at `role1`'s position. -/

theorem grPairLoop_congr (om : List (Int × Int)) (Lev eid h1 t1 i : Nat) :
    ∀ (rs : List Role) (j : Nat) (d₁ d₂ : GrState), d₁.role_ids = d₂.role_ids →
      d₁.head_ids = d₂.head_ids → d₁.tail_ids = d₂.tail_ids →
      (grPairLoop om Lev eid h1 t1 i rs j d₁).role_ids =
        (grPairLoop om Lev eid h1 t1 i rs j d₂).role_ids ∧
      (grPairLoop om Lev eid h1 t1 i rs j d₁).head_ids =
        (grPairLoop om Lev eid h1 t1 i rs j d₂).head_ids ∧
      (grPairLoop om Lev eid h1 t1 i rs j d₁).tail_ids =
        (grPairLoop om Lev eid h1 t1 i rs j d₂).tail_ids
  | [], _, _, _, e₁, e₂, e₃ => ⟨e₁, e₂, e₃⟩
  | r :: rs, j, d₁, d₂, e₁, e₂, e₃ => by
    by_cases hj : j = i
    · simp only [grPairLoop, if_pos hj]
      exact grPairLoop_congr om Lev eid h1 t1 i rs (j + 1) d₁ d₂ e₁ e₂ e₃
    · cases ha : alignRole om r with
      | some ht =>
        obtain ⟨h2, t2⟩ := ht
        by_cases hL : eid < Lev
        · simp only [grPairLoop, if_neg hj, ha, if_pos hL]
          exact grPairLoop_congr om Lev eid h1 t1 i rs (j + 1) _ _ e₁ (by rw [e₂]) (by rw [e₃])
        · simp only [grPairLoop, if_neg hj, ha, if_neg hL]
          exact grPairLoop_congr om Lev eid h1 t1 i rs (j + 1) _ _ e₁ e₂ e₃
      | none =>
        simp only [grPairLoop, if_neg hj, ha]
        exact grPairLoop_congr om Lev eid h1 t1 i rs (j + 1) _ _ e₁ e₂ e₃

theorem grPairLoop_filter_past (om : List (Int × Int)) (Lev eid h1 t1 : Nat) :
    ∀ (rs : List Role) (i j i' j' : Nat) (d : GrState), i < j → i' < j' →
      (grPairLoop om Lev eid h1 t1 i rs j d).role_ids =
        (grPairLoop om Lev eid h1 t1 i' (rs.filter (alignedB om)) j' d).role_ids ∧
      (grPairLoop om Lev eid h1 t1 i rs j d).head_ids =
        (grPairLoop om Lev eid h1 t1 i' (rs.filter (alignedB om)) j' d).head_ids ∧
      (grPairLoop om Lev eid h1 t1 i rs j d).tail_ids =
        (grPairLoop om Lev eid h1 t1 i' (rs.filter (alignedB om)) j' d).tail_ids
  | [], _, _, _, _, _, _, _ => ⟨rfl, rfl, rfl⟩
  | r :: rs, i, j, i', j', d, hij, hij' => by
    have hj : ¬ j = i := by omega
    have hj' : ¬ j' = i' := by omega
    cases ha : alignRole om r with
    | some ht =>
      obtain ⟨h2, t2⟩ := ht
      have hb : alignedB om r = true := by simp [alignedB, ha]
      rw [List.filter_cons_of_pos hb]
      by_cases hL : eid < Lev
      · simp only [grPairLoop, if_neg hj, if_neg hj', ha, if_pos hL]
        exact grPairLoop_filter_past om Lev eid h1 t1 rs i (j + 1) i' (j' + 1) _
          (by omega) (by omega)
      · simp only [grPairLoop, if_neg hj, if_neg hj', ha, if_neg hL]
        exact grPairLoop_filter_past om Lev eid h1 t1 rs i (j + 1) i' (j' + 1) _
          (by omega) (by omega)
    | none =>
      have hb : ¬ alignedB om r = true := by simp [alignedB, ha]
      rw [List.filter_cons_of_neg hb]
      simp only [grPairLoop, if_neg hj, ha]
      have hc := grPairLoop_congr om Lev eid h1 t1 i rs (j + 1)
        { d with warnings := d.warnings + 1 } d rfl rfl rfl
      have hf := grPairLoop_filter_past om Lev eid h1 t1 rs i (j + 1) i' j' d
        (by omega) hij'
      exact ⟨hc.1.trans hf.1, hc.2.1.trans hf.2.1, hc.2.2.trans hf.2.2⟩

theorem grPairLoop_filter_skip (om : List (Int × Int)) (Lev eid h1 t1 : Nat) :
    ∀ (pre : List Role) (r1 : Role) (post : List Role) (i j i' j' : Nat) (d : GrState),
      i = j + pre.length → i' = j' + (pre.filter (alignedB om)).length →
      (grPairLoop om Lev eid h1 t1 i (pre ++ r1 :: post) j d).role_ids =
        (grPairLoop om Lev eid h1 t1 i'
          (pre.filter (alignedB om) ++ r1 :: post.filter (alignedB om)) j' d).role_ids ∧
      (grPairLoop om Lev eid h1 t1 i (pre ++ r1 :: post) j d).head_ids =
        (grPairLoop om Lev eid h1 t1 i'
          (pre.filter (alignedB om) ++ r1 :: post.filter (alignedB om)) j' d).head_ids ∧
      (grPairLoop om Lev eid h1 t1 i (pre ++ r1 :: post) j d).tail_ids =
        (grPairLoop om Lev eid h1 t1 i'
          (pre.filter (alignedB om) ++ r1 :: post.filter (alignedB om)) j' d).tail_ids
  | [], r1, post, i, j, i', j', d, hi, hi' => by
    have hj : j = i := by
      simp only [List.length_nil] at hi
      omega
    have hj' : j' = i' := by
      simp only [List.filter_nil, List.length_nil] at hi'
      omega
    simp only [List.filter_nil, List.nil_append, grPairLoop, if_pos hj, if_pos hj']
    exact grPairLoop_filter_past om Lev eid h1 t1 post i (j + 1) i' (j' + 1) d
      (by omega) (by omega)
  | r :: pre, r1, post, i, j, i', j', d, hi, hi' => by
    have hj : ¬ j = i := by
      simp only [List.length_cons] at hi
      omega
    cases ha : alignRole om r with
    | some ht =>
      obtain ⟨h2, t2⟩ := ht
      have hb : alignedB om r = true := by simp [alignedB, ha]
      rw [List.filter_cons_of_pos hb] at hi' ⊢
      have hj' : ¬ j' = i' := by
        simp only [List.length_cons] at hi'
        omega
      rw [List.cons_append]
      by_cases hL : eid < Lev
      · simp only [grPairLoop, if_neg hj, if_neg hj', ha, if_pos hL]
        exact grPairLoop_filter_skip om Lev eid h1 t1 pre r1 post i (j + 1) i' (j' + 1) _
          (by simp only [List.length_cons] at hi; omega)
          (by simp only [List.length_cons] at hi'; omega)
      · simp only [grPairLoop, if_neg hj, if_neg hj', ha, if_neg hL]
        exact grPairLoop_filter_skip om Lev eid h1 t1 pre r1 post i (j + 1) i' (j' + 1) _
          (by simp only [List.length_cons] at hi; omega)
          (by simp only [List.length_cons] at hi'; omega)
    | none =>
      have hb : ¬ alignedB om r = true := by simp [alignedB, ha]
      rw [List.filter_cons_of_neg hb] at hi' ⊢
      simp only [grPairLoop, if_neg hj, ha]
      have hc := grPairLoop_congr om Lev eid h1 t1 i (pre ++ r1 :: post) (j + 1)
        { d with warnings := d.warnings + 1 } d rfl rfl rfl
      have hf := grPairLoop_filter_skip om Lev eid h1 t1 pre r1 post i (j + 1) i' j' d
        (by simp only [List.length_cons] at hi; omega) hi'
      exact ⟨hc.1.trans hf.1, hc.2.1.trans hf.2.1, hc.2.2.trans hf.2.2⟩

theorem grRoleLoop_congr (om : List (Int × Int)) (Lev eid : Nat) (allRoles : List Role) :
    ∀ (rs : List Role) (i : Nat) (d₁ d₂ : GrState), d₁.role_ids = d₂.role_ids →
      d₁.head_ids = d₂.head_ids → d₁.tail_ids = d₂.tail_ids →
      (grRoleLoop om Lev eid allRoles rs i d₁).role_ids =
        (grRoleLoop om Lev eid allRoles rs i d₂).role_ids ∧
      (grRoleLoop om Lev eid allRoles rs i d₁).head_ids =
        (grRoleLoop om Lev eid allRoles rs i d₂).head_ids ∧
      (grRoleLoop om Lev eid allRoles rs i d₁).tail_ids =
        (grRoleLoop om Lev eid allRoles rs i d₂).tail_ids
  | [], _, _, _, e₁, e₂, e₃ => ⟨e₁, e₂, e₃⟩
  | r :: rs, i, d₁, d₂, e₁, e₂, e₃ => by
    cases ha : alignRole om r with
    | some ht =>
      obtain ⟨h1, t1⟩ := ht
      simp only [grRoleLoop, ha]
      have hp := grPairLoop_congr om Lev eid h1 t1 i allRoles 0
        { d₁ with role_ids := setOne d₁.role_ids 0 h1 t1 }
        { d₂ with role_ids := setOne d₂.role_ids 0 h1 t1 }
        (by rw [e₁]) e₂ e₃
      exact grRoleLoop_congr om Lev eid allRoles rs (i + 1) _ _ hp.1 hp.2.1 hp.2.2
    | none =>
      simp only [grRoleLoop, ha]
      exact grRoleLoop_congr om Lev eid allRoles rs (i + 1) _ _ e₁ e₂ e₃

theorem grRoleLoop_filter (om : List (Int × Int)) (Lev eid : Nat) :
    ∀ (post pre : List Role) (d : GrState),
      (grRoleLoop om Lev eid (pre ++ post) post pre.length d).role_ids =
        (grRoleLoop om Lev eid
          (pre.filter (alignedB om) ++ post.filter (alignedB om))
          (post.filter (alignedB om)) (pre.filter (alignedB om)).length d).role_ids ∧
      (grRoleLoop om Lev eid (pre ++ post) post pre.length d).head_ids =
        (grRoleLoop om Lev eid
          (pre.filter (alignedB om) ++ post.filter (alignedB om))
          (post.filter (alignedB om)) (pre.filter (alignedB om)).length d).head_ids ∧
      (grRoleLoop om Lev eid (pre ++ post) post pre.length d).tail_ids =
        (grRoleLoop om Lev eid
          (pre.filter (alignedB om) ++ post.filter (alignedB om))
          (post.filter (alignedB om)) (pre.filter (alignedB om)).length d).tail_ids
  | [], _, _ => by
    simp only [List.filter_nil, grRoleLoop]
    exact ⟨trivial, trivial, trivial⟩
  | r1 :: post, pre, d => by
    cases ha : alignRole om r1 with
    | some ht =>
      obtain ⟨h1, t1⟩ := ht
      have hb : alignedB om r1 = true := by simp [alignedB, ha]
      rw [List.filter_cons_of_pos hb]
      simp only [grRoleLoop, ha]
      have e1 : (pre ++ [r1]) ++ post = pre ++ r1 :: post := by simp
      have e2 : (pre ++ [r1]).length = pre.length + 1 := by simp
      have e3 : (pre ++ [r1]).filter (alignedB om) = pre.filter (alignedB om) ++ [r1] := by
        simp [hb]
      have e4 : (pre.filter (alignedB om) ++ [r1]) ++ post.filter (alignedB om) =
          pre.filter (alignedB om) ++ r1 :: post.filter (alignedB om) := by simp
      have e5 : (pre.filter (alignedB om) ++ [r1]).length =
          (pre.filter (alignedB om)).length + 1 := by simp
      have hskip := grPairLoop_filter_skip om Lev eid h1 t1 pre r1 post
        pre.length 0 (pre.filter (alignedB om)).length 0
        { d with role_ids := setOne d.role_ids 0 h1 t1 }
        (by omega) (by omega)
      have hcong := grRoleLoop_congr om Lev eid (pre ++ r1 :: post) post (pre.length + 1)
        _ _ hskip.1 hskip.2.1 hskip.2.2
      have ih := grRoleLoop_filter om Lev eid post (pre ++ [r1])
        (grPairLoop om Lev eid h1 t1 (pre.filter (alignedB om)).length
          (pre.filter (alignedB om) ++ r1 :: post.filter (alignedB om)) 0
          { d with role_ids := setOne d.role_ids 0 h1 t1 })
      simp only [e1, e2, e3, e4, e5] at ih
      exact ⟨hcong.1.trans ih.1, hcong.2.1.trans ih.2.1, hcong.2.2.trans ih.2.2⟩
    | none =>
      have hb : ¬ alignedB om r1 = true := by simp [alignedB, ha]
      rw [List.filter_cons_of_neg hb]
      simp only [grRoleLoop, ha]
      have e1 : (pre ++ [r1]) ++ post = pre ++ r1 :: post := by simp
      have e2 : (pre ++ [r1]).length = pre.length + 1 := by simp
      have e3 : (pre ++ [r1]).filter (alignedB om) = pre.filter (alignedB om) := by
        simp [hb]
      have ih := grRoleLoop_filter om Lev eid post (pre ++ [r1])
        { d with warnings := d.warnings + 1 }
      simp only [e1, e2, e3] at ih
      have hc := grRoleLoop_congr om Lev eid
        (pre.filter (alignedB om) ++ post.filter (alignedB om)) (post.filter (alignedB om))
        (pre.filter (alignedB om)).length { d with warnings := d.warnings + 1 } d rfl rfl rfl
      exact ⟨ih.1.trans hc.1, ih.2.1.trans hc.2.1, ih.2.2.trans hc.2.2⟩

theorem grEventRoles_filter (om : List (Int × Int)) (Lev eid : Nat) (e : Event)
    (d : GrState) :
    (grRoleLoop om Lev eid (e.roles ++ [triggerRole e]) (e.roles ++ [triggerRole e]) 0
        d).role_ids =
      (grRoleLoop om Lev eid
        ((e.roles.filter (alignedB om)) ++ [triggerRole e])
        ((e.roles.filter (alignedB om)) ++ [triggerRole e]) 0 d).role_ids ∧
    (grRoleLoop om Lev eid (e.roles ++ [triggerRole e]) (e.roles ++ [triggerRole e]) 0
        d).head_ids =
      (grRoleLoop om Lev eid
        ((e.roles.filter (alignedB om)) ++ [triggerRole e])
        ((e.roles.filter (alignedB om)) ++ [triggerRole e]) 0 d).head_ids ∧
    (grRoleLoop om Lev eid (e.roles ++ [triggerRole e]) (e.roles ++ [triggerRole e]) 0
        d).tail_ids =
      (grRoleLoop om Lev eid
        ((e.roles.filter (alignedB om)) ++ [triggerRole e])
        ((e.roles.filter (alignedB om)) ++ [triggerRole e]) 0 d).tail_ids := by
  have hA := grRoleLoop_filter om Lev eid (e.roles ++ [triggerRole e]) [] d
  have hB := grRoleLoop_filter om Lev eid ((e.roles.filter (alignedB om)) ++ [triggerRole e])
    [] d
  have hlist : (e.roles ++ [triggerRole e]).filter (alignedB om) =
      ((e.roles.filter (alignedB om)) ++ [triggerRole e]).filter (alignedB om) := by
    rw [List.filter_append, List.filter_append, filter_alignedB_idem]
  simp only [List.filter_nil, List.nil_append, List.length_nil, hlist] at hA hB
  exact ⟨hA.1.trans hB.1.symm, hA.2.1.trans hB.2.1.symm, hA.2.2.trans hB.2.2.symm⟩

theorem grEvents_filter (e2id : String → Option Nat) (Lev : Nat) (om : List (Int × Int)) :
    ∀ (es : List Event) (d₁ d₂ : GrState), (∀ e ∈ es, (e2id e.label).isSome) →
      d₁.role_ids = d₂.role_ids → d₁.head_ids = d₂.head_ids → d₁.tail_ids = d₂.tail_ids →
      ∃ p q, grEvents e2id Lev om es d₁ = some p ∧
        grEvents e2id Lev om
          (es.map fun e => { e with roles := e.roles.filter (alignedB om) }) d₂ = some q ∧
        p.1.role_ids = q.1.role_ids ∧ p.1.head_ids = q.1.head_ids ∧
        p.1.tail_ids = q.1.tail_ids
  | [], d₁, d₂, _, e₁, e₂, e₃ => ⟨(d₁, []), (d₂, []), rfl, rfl, e₁, e₂, e₃⟩
  | e :: es, d₁, d₂, hlab, e₁, e₂, e₃ => by
    obtain ⟨eid, heid⟩ := Option.isSome_iff_exists.mp (hlab e (by simp))
    have hc := grRoleLoop_congr om Lev eid (e.roles ++ [triggerRole e])
      (e.roles ++ [triggerRole e]) 0 d₁ d₂ e₁ e₂ e₃
    have hev := grEventRoles_filter om Lev eid e d₂
    obtain ⟨p', q', hp', hq', f₁, f₂, f₃⟩ :=
      grEvents_filter e2id Lev om es
        (grRoleLoop om Lev eid (e.roles ++ [triggerRole e]) (e.roles ++ [triggerRole e]) 0 d₁)
        (grRoleLoop om Lev eid ((e.roles.filter (alignedB om)) ++ [triggerRole e])
          ((e.roles.filter (alignedB om)) ++ [triggerRole e]) 0 d₂)
        (fun e' h' => hlab e' (by simp [h']))
        (hc.1.trans hev.1) (hc.2.1.trans hev.2.1) (hc.2.2.trans hev.2.2)
    refine ⟨(p'.1, { e with roles := e.roles ++ [triggerRole e] } :: p'.2),
      (q'.1, { e with roles := (e.roles.filter (alignedB om)) ++ [triggerRole e] } :: q'.2),
      ?_, ?_, f₁, f₂, f₃⟩
    · simp only [grEvents, grEvent, heid, Option.bind_eq_bind, Option.some_bind, hp']
    · simp only [List.map_cons, grEvents, grEvent, heid, triggerRole_filter,
        Option.bind_eq_bind, Option.some_bind, hq']

theorem grPairLoop_warnings_le (om : List (Int × Int)) (Lev eid h1 t1 i : Nat) :
    ∀ (rs : List Role) (j : Nat) (d : GrState),
      d.warnings ≤ (grPairLoop om Lev eid h1 t1 i rs j d).warnings
  | [], _, _ => le_refl _
  | r :: rs, j, d => by
    by_cases hj : j = i
    · simp only [grPairLoop, if_pos hj]
      exact grPairLoop_warnings_le om Lev eid h1 t1 i rs (j + 1) d
    · cases ha : alignRole om r with
      | some ht =>
        obtain ⟨h2, t2⟩ := ht
        by_cases hL : eid < Lev
        · simp only [grPairLoop, if_neg hj, ha, if_pos hL]
          exact grPairLoop_warnings_le om Lev eid h1 t1 i rs (j + 1)
            { d with
              head_ids := setOne d.head_ids eid h1 h2
              tail_ids := setOne d.tail_ids eid t1 t2 }
        · simp only [grPairLoop, if_neg hj, ha, if_neg hL]
          exact le_trans (Nat.le_succ _)
            (grPairLoop_warnings_le om Lev eid h1 t1 i rs (j + 1)
              { d with warnings := d.warnings + 1 })
      | none =>
        simp only [grPairLoop, if_neg hj, ha]
        exact le_trans (Nat.le_succ _)
          (grPairLoop_warnings_le om Lev eid h1 t1 i rs (j + 1)
            { d with warnings := d.warnings + 1 })

theorem grRoleLoop_warnings_le (om : List (Int × Int)) (Lev eid : Nat)
    (allRoles : List Role) :
    ∀ (rs : List Role) (i : Nat) (d : GrState),
      d.warnings ≤ (grRoleLoop om Lev eid allRoles rs i d).warnings
  | [], _, _ => le_refl _
  | r :: rs, i, d => by
    cases ha : alignRole om r with
    | some ht =>
      obtain ⟨h1, t1⟩ := ht
      simp only [grRoleLoop, ha]
      exact le_trans
        (grPairLoop_warnings_le om Lev eid h1 t1 i allRoles 0
          { d with role_ids := setOne d.role_ids 0 h1 t1 })
        (grRoleLoop_warnings_le om Lev eid allRoles rs (i + 1)
          (grPairLoop om Lev eid h1 t1 i allRoles 0
            { d with role_ids := setOne d.role_ids 0 h1 t1 }))
    | none =>
      simp only [grRoleLoop, ha]
      exact le_trans (Nat.le_succ _)
        (grRoleLoop_warnings_le om Lev eid allRoles rs (i + 1)
          { d with warnings := d.warnings + 1 })

theorem grRoleLoop_warnings_strict (om : List (Int × Int)) (Lev eid : Nat)
    (allRoles : List Role) :
    ∀ (rs : List Role) (i : Nat) (d : GrState) (r : Role), r ∈ rs →
      alignRole om r = none →
      d.warnings < (grRoleLoop om Lev eid allRoles rs i d).warnings
  | r' :: rs, i, d, r, hmem, hnone => by
    rcases List.mem_cons.mp hmem with rfl | hmem
    · simp only [grRoleLoop, hnone]
      exact lt_of_lt_of_le (Nat.lt_succ_self _)
        (grRoleLoop_warnings_le om Lev eid allRoles rs (i + 1)
          { d with warnings := d.warnings + 1 })
    · cases ha : alignRole om r' with
      | some ht =>
        obtain ⟨h1, t1⟩ := ht
        simp only [grRoleLoop, ha]
        exact lt_of_le_of_lt
          (grPairLoop_warnings_le om Lev eid h1 t1 i allRoles 0
            { d with role_ids := setOne d.role_ids 0 h1 t1 })
          (grRoleLoop_warnings_strict om Lev eid allRoles rs (i + 1)
            (grPairLoop om Lev eid h1 t1 i allRoles 0
              { d with role_ids := setOne d.role_ids 0 h1 t1 }) r hmem hnone)
      | none =>
        simp only [grRoleLoop, ha]
        exact lt_of_le_of_lt (Nat.le_succ _)
          (grRoleLoop_warnings_strict om Lev eid allRoles rs (i + 1)
            { d with warnings := d.warnings + 1 } r hmem hnone)

theorem grEvents_warnings_le (e2id : String → Option Nat) (Lev : Nat)
    (om : List (Int × Int)) :
    ∀ (es : List Event) (d : GrState) (p : GrState × List Event),
      grEvents e2id Lev om es d = some p → d.warnings ≤ p.1.warnings
  | [], d, p, h => by
    simp only [grEvents, Option.some.injEq] at h
    rw [← h]
  | e :: es, d, p, h => by
    cases heid : e2id e.label with
    | none => simp [grEvents, grEvent, heid] at h
    | some eid =>
      simp only [grEvents, grEvent, heid, Option.bind_eq_bind, Option.some_bind] at h
      cases hrec : grEvents e2id Lev om es
        (grRoleLoop om Lev eid (e.roles ++ [triggerRole e]) (e.roles ++ [triggerRole e]) 0 d)
        with
      | none => rw [hrec] at h; simp at h
      | some q =>
        rw [hrec] at h
        simp only [Option.some_bind, Option.some.injEq] at h
        rw [← h]
        exact le_trans
          (grRoleLoop_warnings_le om Lev eid (e.roles ++ [triggerRole e])
            (e.roles ++ [triggerRole e]) 0 d)
          (grEvents_warnings_le e2id Lev om es _ q hrec)

theorem grEvents_warnings_strict (e2id : String → Option Nat) (Lev : Nat)
    (om : List (Int × Int)) :
    ∀ (es : List Event) (d : GrState) (p : GrState × List Event) (e : Event), e ∈ es →
      (∃ r ∈ e.roles ++ [triggerRole e], alignRole om r = none) →
      grEvents e2id Lev om es d = some p → d.warnings < p.1.warnings
  | e' :: es, d, p, e, hmem, ⟨r, hr, hnone⟩, h => by
    cases heid : e2id e'.label with
    | none => simp [grEvents, grEvent, heid] at h
    | some eid =>
      simp only [grEvents, grEvent, heid, Option.bind_eq_bind, Option.some_bind] at h
      cases hrec : grEvents e2id Lev om es
        (grRoleLoop om Lev eid (e'.roles ++ [triggerRole e']) (e'.roles ++ [triggerRole e'])
          0 d) with
      | none => rw [hrec] at h; simp at h
      | some q =>
        rw [hrec] at h
        simp only [Option.some_bind, Option.some.injEq] at h
        rw [← h]
        rcases List.mem_cons.mp hmem with rfl | hmem
        · exact lt_of_lt_of_le
            (grRoleLoop_warnings_strict om Lev eid (e.roles ++ [triggerRole e])
              (e.roles ++ [triggerRole e]) 0 d r hr hnone)
            (grEvents_warnings_le e2id Lev om es _ q hrec)
        · exact lt_of_le_of_lt
            (grRoleLoop_warnings_le om Lev eid (e'.roles ++ [triggerRole e'])
              (e'.roles ++ [triggerRole e']) 0 d)
            (grEvents_warnings_strict e2id Lev om es _ q e hmem ⟨r, hr, hnone⟩ hrec)

theorem WFExample_filterAligned {om : List (Int × Int)} {ex : Example} (hwf : WFExample ex) :
    WFExample (filterAligned om ex) := by
  intro e' he'
  obtain ⟨e, he, rfl⟩ := List.mem_map.mp he'
  obtain ⟨htr, hroles⟩ := hwf e he
  exact ⟨htr, fun r hr => hroles r (List.mem_of_mem_filter hr)⟩

/-- C4: alignment failures are contained in every tag encoder.  For a
well-formed example whose event labels are in the vocabulary, each of the
four encoders produces exactly the tags of the example with every
non-aligning role removed (so only the failing roles and the pairs depending
on them are lost), emits at least one warning whenever some role of the
extended role list fails to align, and never lets the failure escape: the
dense encoders are total, and the fallible `graph_transform` and
`sparse_transform` still return a result. -/
theorem alignment_failure_contained (c2id : String × String → Option Nat)
    (e2id : String → Option Nat) (L Lev : Nat) (tok : String → List (Int × Int))
    (ex : Example) (hwf : WFExample ex) (hlab : ∀ e ∈ ex.events, (e2id e.label).isSome) :
    ((gplinker_transform c2id L tok ex).1.role_ids =
        (gplinker_transform c2id L tok (filterAligned (tok ex.text) ex)).1.role_ids ∧
      (gplinker_transform c2id L tok ex).1.head_ids =
        (gplinker_transform c2id L tok (filterAligned (tok ex.text) ex)).1.head_ids ∧
      (gplinker_transform c2id L tok ex).1.tail_ids =
        (gplinker_transform c2id L tok (filterAligned (tok ex.text) ex)).1.tail_ids) ∧
    ((∃ e ∈ ex.events, ∃ r ∈ e.roles ++ [triggerRole e], alignRole (tok ex.text) r = none) →
      0 < (gplinker_transform c2id L tok ex).1.warnings) ∧
    ((blinker_transform e2id Lev tok ex).1.role_tags =
        (blinker_transform e2id Lev tok (filterAligned (tok ex.text) ex)).1.role_tags ∧
      (blinker_transform e2id Lev tok ex).1.head_tags =
        (blinker_transform e2id Lev tok (filterAligned (tok ex.text) ex)).1.head_tags ∧
      (blinker_transform e2id Lev tok ex).1.tail_tags =
        (blinker_transform e2id Lev tok (filterAligned (tok ex.text) ex)).1.tail_tags) ∧
    ((∃ e ∈ ex.events, ∃ r ∈ e.roles ++ [blTriggerRole e], alignRole (tok ex.text) r = none) →
      0 < (blinker_transform e2id Lev tok ex).1.warnings) ∧
    (∃ P Q, graph_transform e2id Lev tok ex = some P ∧
      graph_transform e2id Lev tok (filterAligned (tok ex.text) ex) = some Q ∧
      P.1.role_ids = Q.1.role_ids ∧ P.1.head_ids = Q.1.head_ids ∧
      P.1.tail_ids = Q.1.tail_ids ∧
      ((∃ e ∈ ex.events, ∃ r ∈ e.roles ++ [triggerRole e],
          alignRole (tok ex.text) r = none) → 0 < P.1.warnings)) ∧
    (∃ s exm s' exm', sparse_collect c2id L tok ex = some (s, exm) ∧
      sparse_collect c2id L tok (filterAligned (tok ex.text) ex) = some (s', exm') ∧
      (∀ l, s.role_tags l = s'.role_tags l) ∧ s.head_tags = s'.head_tags ∧
      s.tail_tags = s'.tail_tags ∧
      s.warnings = (gplinker_transform c2id L tok ex).1.warnings) := by
  have hfil := gpEvents_filter c2id L (tok ex.text) ex.events gpInit
  have hfilB := blEvents_filter e2id Lev (tok ex.text) ex.events blInit
  obtain ⟨s, hs, hds⟩ :=
    spEvents_equiv c2id L (tok ex.text) ex.events gpInit spInit hwf dsequiv_init
  have hwfF : ∀ e ∈ ex.events.map
      (fun e => { e with roles := e.roles.filter (alignedB (tok ex.text)) }), WFEvent e := by
    intro e' he'
    obtain ⟨e, he, rfl⟩ := List.mem_map.mp he'
    obtain ⟨htr, hroles⟩ := hwf e he
    exact ⟨htr, fun r hr => hroles r (List.mem_of_mem_filter hr)⟩
  obtain ⟨s', hs', hds'⟩ :=
    spEvents_equiv c2id L (tok ex.text)
      (ex.events.map fun e => { e with roles := e.roles.filter (alignedB (tok ex.text)) })
      gpInit spInit hwfF dsequiv_init
  obtain ⟨P', Q', hP', hQ', g₁, g₂, g₃⟩ :=
    grEvents_filter e2id Lev (tok ex.text) ex.events grInit grInit hlab rfl rfl rfl
  refine ⟨⟨hfil.1, hfil.2.1, hfil.2.2⟩, ?_, ⟨hfilB.1, hfilB.2.1, hfilB.2.2⟩, ?_, ?_, ?_⟩
  · rintro ⟨e, he, r, hr, hnone⟩
    exact gpEvents_warnings_strict c2id L (tok ex.text) ex.events gpInit e he ⟨r, hr, hnone⟩
  · rintro ⟨e, he, r, hr, hnone⟩
    exact blEvents_warnings_strict e2id Lev (tok ex.text) ex.events blInit e he ⟨r, hr, hnone⟩
  · refine ⟨(P'.1, { ex with events := P'.2 }), (Q'.1, { ex with events := Q'.2 }),
      ?_, ?_, g₁, g₂, g₃, ?_⟩
    · simp only [graph_transform, hP', Option.bind_eq_bind, Option.some_bind]
    · simp only [graph_transform, filterAligned, hQ', Option.bind_eq_bind, Option.some_bind]
    · rintro ⟨e, he, r, hr, hnone⟩
      exact grEvents_warnings_strict e2id Lev (tok ex.text) ex.events grInit P' e he
        ⟨r, hr, hnone⟩ hP'
  · refine ⟨s, { ex with events := ex.events.map withTriggerRole }, s',
      { ex with events := (ex.events.map (fun e => { e with roles := e.roles.filter (alignedB (tok ex.text)) })).map withTriggerRole },
      ?_, ?_, ?_, ?_, ?_, hds.2.2.2.symm⟩
    · simp only [sparse_collect, hs, Option.bind_eq_bind, Option.some_bind]
    · simp only [sparse_collect, filterAligned, hs', Option.bind_eq_bind, Option.some_bind]
    · intro l
      ext pr
      obtain ⟨i, j⟩ := pr
      have hmid : ((gpEvents c2id L (tok ex.text) ex.events gpInit).1.role_ids l i j = 1) ↔
          ((gpEvents c2id L (tok ex.text)
            (ex.events.map fun e => { e with roles := e.roles.filter (alignedB (tok ex.text)) })
            gpInit).1.role_ids l i j = 1) := by
        rw [hfil.1]
      exact (hds.1 l i j).symm.trans (hmid.trans (hds'.1 l i j))
    · ext pr
      obtain ⟨i, j⟩ := pr
      have h1 := hds.2.1 0 i j
      have h2 := hds'.2.1 0 i j
      simp only [eq_self_iff_true, true_and] at h1 h2
      have hmid : ((gpEvents c2id L (tok ex.text) ex.events gpInit).1.head_ids 0 i j = 1) ↔
          ((gpEvents c2id L (tok ex.text)
            (ex.events.map fun e => { e with roles := e.roles.filter (alignedB (tok ex.text)) })
            gpInit).1.head_ids 0 i j = 1) := by
        rw [hfil.2.1]
      exact h1.symm.trans (hmid.trans h2)
    · ext pr
      obtain ⟨i, j⟩ := pr
      have h1 := hds.2.2.1 0 i j
      have h2 := hds'.2.2.1 0 i j
      simp only [eq_self_iff_true, true_and] at h1 h2
      have hmid : ((gpEvents c2id L (tok ex.text) ex.events gpInit).1.tail_ids 0 i j = 1) ↔
          ((gpEvents c2id L (tok ex.text)
            (ex.events.map fun e => { e with roles := e.roles.filter (alignedB (tok ex.text)) })
            gpInit).1.tail_ids 0 i j = 1) := by
        rw [hfil.2.2]
      exact h1.symm.trans (hmid.trans h2)

/-- C4 witness: the containment for all four encoders at the concrete
well-formed example `exW`. -/
theorem alignment_failure_contained_witness :
    ((gplinker_transform c2idW 2 tokW exW).1.role_ids =
        (gplinker_transform c2idW 2 tokW (filterAligned (tokW exW.text) exW)).1.role_ids ∧
      (gplinker_transform c2idW 2 tokW exW).1.head_ids =
        (gplinker_transform c2idW 2 tokW (filterAligned (tokW exW.text) exW)).1.head_ids ∧
      (gplinker_transform c2idW 2 tokW exW).1.tail_ids =
        (gplinker_transform c2idW 2 tokW (filterAligned (tokW exW.text) exW)).1.tail_ids) ∧
    ((∃ e ∈ exW.events, ∃ r ∈ e.roles ++ [triggerRole e],
        alignRole (tokW exW.text) r = none) →
      0 < (gplinker_transform c2idW 2 tokW exW).1.warnings) ∧
    ((blinker_transform e2idW 1 tokW exW).1.role_tags =
        (blinker_transform e2idW 1 tokW (filterAligned (tokW exW.text) exW)).1.role_tags ∧
      (blinker_transform e2idW 1 tokW exW).1.head_tags =
        (blinker_transform e2idW 1 tokW (filterAligned (tokW exW.text) exW)).1.head_tags ∧
      (blinker_transform e2idW 1 tokW exW).1.tail_tags =
        (blinker_transform e2idW 1 tokW (filterAligned (tokW exW.text) exW)).1.tail_tags) ∧
    ((∃ e ∈ exW.events, ∃ r ∈ e.roles ++ [blTriggerRole e],
        alignRole (tokW exW.text) r = none) →
      0 < (blinker_transform e2idW 1 tokW exW).1.warnings) ∧
    (∃ P Q, graph_transform e2idW 1 tokW exW = some P ∧
      graph_transform e2idW 1 tokW (filterAligned (tokW exW.text) exW) = some Q ∧
      P.1.role_ids = Q.1.role_ids ∧ P.1.head_ids = Q.1.head_ids ∧
      P.1.tail_ids = Q.1.tail_ids ∧
      ((∃ e ∈ exW.events, ∃ r ∈ e.roles ++ [triggerRole e],
          alignRole (tokW exW.text) r = none) → 0 < P.1.warnings)) ∧
    (∃ s exm s' exm', sparse_collect c2idW 2 tokW exW = some (s, exm) ∧
      sparse_collect c2idW 2 tokW (filterAligned (tokW exW.text) exW) = some (s', exm') ∧
      (∀ l, s.role_tags l = s'.role_tags l) ∧ s.head_tags = s'.head_tags ∧
      s.tail_tags = s'.tail_tags ∧
      s.warnings = (gplinker_transform c2idW 2 tokW exW).1.warnings) :=
  alignment_failure_contained c2idW e2idW 2 1 tokW exW (by decide) (by decide)
